import Mathlib

/-!
# Verification of the `apex-log-parser` core

A shallow embedding of the TypeScript sources of the `apex-log-parser`
repository (src/ApexLogParser.ts, src/ApexLogSplitter.ts, src/IdGenerator.ts,
src/ParserUtils.ts) together with proofs about the embedded definitions.

Modelling conventions, used consistently below:

* JavaScript strings are modelled as `List Char` (`Str`); every string
  operation used by the sources (`split`, `indexOf`, `substring`, `trim`,
  `padStart`, ...) is re-implemented on `Str` with JavaScript semantics.
* JavaScript numbers are modelled exactly, by the type `JSNum`
  (`nan`, signed infinity, or a rational value).  The sources only combine
  numbers with `-`, `/ 1_000_000`, `Math.round` and truthiness tests, all of
  which are reproduced on `JSNum`/`ℚ`.  Double-precision rounding of
  individual arithmetic operations is not modelled; all arithmetic performed
  by the sources on the values of interest is exact.
* `undefined` is modelled with `Option`; a JavaScript runtime `TypeError`
  (a property access on `null`/`undefined`) is modelled by returning `none`
  from the enclosing operation (`Option PState`).
-/

/-- JavaScript strings, modelled as lists of characters. -/
abbrev Str : Type := List Char

/-- Coerce a Lean string literal to the `Str` model. -/
def strOf (s : String) : Str := s.data

/-- A JavaScript number: `NaN`, `±Infinity`, or a (finite) value.
Finite doubles are modelled by exact rationals. -/
inductive JSNum : Type where
  | nan : JSNum
  | inf : Bool → JSNum          -- `inf true` = +Infinity, `inf false` = -Infinity
  | val : ℚ → JSNum
deriving DecidableEq, Repr

/-- Truthiness of a JavaScript number (`if (x)`): `NaN` and `0` are falsy,
everything else (including infinities) is truthy. -/
def JSNum.truthy : JSNum → Bool
  | .nan => false
  | .inf _ => true
  | .val q => q != 0

/-- Truthiness of an optional JavaScript number (`undefined` is falsy). -/
def jsTruthy : Option JSNum → Bool
  | none => false
  | some n => n.truthy

/-- JavaScript subtraction on numbers. -/
def JSNum.sub : JSNum → JSNum → JSNum
  | .nan, _ => .nan
  | _, .nan => .nan
  | .inf a, .inf b => if a = b then .nan else .inf a
  | .inf a, .val _ => .inf a
  | .val _, .inf b => .inf !b
  | .val a, .val b => .val (a - b)

/-- `Number.EPSILON` (2⁻⁵²), as an exact rational. -/
def jsEpsilon : ℚ := 1 / 2 ^ 52

/-- `Math.round`: round to the nearest integer, halves toward `+∞`. -/
def jsRound (q : ℚ) : ℤ := ⌊q + 1 / 2⌋

/-- `Math.round((x + Number.EPSILON) * 1000) / 1000` — the 3-decimal rounding
used by the parser for durations. -/
def round3 (q : ℚ) : ℚ := (jsRound ((q + jsEpsilon) * 1000) : ℚ) / 1000

/-! ## Character classes and elementary string operations -/

/-- The whitespace characters recognised by JavaScript `trim`, `parseFloat`
and the regex class `\s`. -/
def isJsSpace (c : Char) : Bool :=
  c = ' ' || c = '\t' || c = '\n' || c = '\r' ||
  c = '\x0b' || c = '\x0c' || c = ' ' || c = '﻿'

/-- The regex class `\d` (ASCII decimal digit). -/
def isDigitChar (c : Char) : Bool := '0' ≤ c && c ≤ '9'

/-- Numeric value of an ASCII digit character. -/
def digitVal (c : Char) : ℕ := c.toNat - 48

/-- JavaScript `String.prototype.trim` (strip whitespace from both ends). -/
def jsTrim (s : Str) : Str :=
  ((s.dropWhile isJsSpace).reverse.dropWhile isJsSpace).reverse

/-- JavaScript `split` with a single-character string separator.
`"".split(c) = [""]`, and separators at the ends produce empty pieces. -/
def splitOnChar (c : Char) : Str → List Str
  | [] => [[]]
  | x :: xs =>
    match splitOnChar c xs, decide (x = c) with
    | r, true => [] :: r
    | [], false => [[x]]        -- unreachable: the recursive result is never []
    | y :: ys, false => (x :: y) :: ys

/-- JavaScript `indexOf` for a single character: index of the first
occurrence, `-1` if absent. -/
def jsIndexOfChar (s : Str) (c : Char) : ℤ :=
  match s with
  | [] => -1
  | x :: xs =>
    if x = c then 0
    else
      match jsIndexOfChar xs c with
      | -1 => -1
      | i => i + 1

/-- JavaScript `indexOf` for a substring needle: index of the first
occurrence, `-1` if absent.  (`indexOf("")` is `0`, as in JavaScript.) -/
def jsIndexOfStr (s pat : Str) : ℤ :=
  match s with
  | [] => if pat = [] then 0 else -1
  | _ :: xs =>
    if pat.isPrefixOf s then 0
    else
      match jsIndexOfStr xs pat with
      | -1 => -1
      | i => i + 1

/-- JavaScript `String.prototype.substring(a, b)`: clamp both indices into
`[0, length]`, swap them if necessary, then slice. -/
def jsSubstring (s : Str) (a b : ℤ) : Str :=
  let n : ℤ := s.length
  let a' := min (max a 0) n
  let b' := min (max b 0) n
  let lo := min a' b'
  let hi := max a' b'
  (s.take hi.toNat).drop lo.toNat

/-- JavaScript element access `l[i]` for a possibly negative index
(negative or out-of-range indices give `undefined`). -/
def jsIdx {α : Type} (l : List α) (i : ℤ) : Option α :=
  if i < 0 then none else l.get? i.toNat

/-- JavaScript `String.prototype.padStart(n, c)`. -/
def padStart (s : Str) (n : ℕ) (c : Char) : Str :=
  if s.length ≥ n then s else List.replicate (n - s.length) c ++ s

/-! ## Rendering and parsing of decimal numbers -/

/-- Decimal rendering of a natural number, little helper with explicit fuel
(the fuel argument strictly bounds the number of divisions by 10). -/
def natToStrAux : ℕ → ℕ → Str
  | 0, _ => []
  | fuel + 1, n =>
    if n < 10 then [Nat.digitChar n]
    else natToStrAux fuel (n / 10) ++ [Nat.digitChar (n % 10)]

/-- JavaScript `Number.prototype.toString()` for a natural number. -/
def natToStr (n : ℕ) : Str := natToStrAux (n + 1) n

/-- Value of a big-endian string of decimal digits. -/
def digitsVal (s : Str) : ℕ := s.foldl (fun a c => 10 * a + digitVal c) 0

/-! ## JavaScript numeric parsing: `parseFloat`, `parseInt`, `Number` -/

/-- Parse a run of decimal digits; returns the digits and the rest. -/
def takeDigits (s : Str) : Str × Str := (s.takeWhile isDigitChar, s.dropWhile isDigitChar)

/-- Parse an optional exponent part `[eE][+-]?digits`.  Returns the exponent
value; the part is only consumed when at least one digit follows, which is
all that matters for the numeric value. -/
def parseExponent (s : Str) : ℤ :=
  match s with
  | 'e' :: r | 'E' :: r =>
    let (sgn, r1) : ℤ × Str :=
      match r with
      | '+' :: t => (1, t)
      | '-' :: t => (-1, t)
      | t => (1, t)
    let (ds, _) := takeDigits r1
    if ds = [] then 0 else sgn * (digitsVal ds : ℤ)
  | _ => 0

/-- The value of a decimal literal `int.frac e exp`, as a rational. -/
def decimalValue (intDs fracDs : Str) (ex : ℤ) : ℚ :=
  ((digitsVal intDs : ℚ) + (digitsVal fracDs : ℚ) / 10 ^ fracDs.length) * 10 ^ ex

/-- Strip an optional leading sign (shared by `parseFloat`, `parseInt` and
`Number`): returns (isNegative, rest). -/
def stripSign : Str → Bool × Str
  | '-' :: t => (true, t)
  | '+' :: t => (false, t)
  | t => (false, t)

/-- JavaScript `parseFloat`: skip leading whitespace, optional sign,
`Infinity` keyword or longest decimal-literal prefix; `NaN` when no prefix
parses. -/
def jsParseFloat (s : Str) : JSNum :=
  let s1 := s.dropWhile isJsSpace
  let (neg, s2) := stripSign s1
  if (strOf "Infinity").isPrefixOf s2 then .inf !neg
  else
    let (intDs, r1) := takeDigits s2
    let (fracDs, r2) : Str × Str :=
      match r1 with
      | '.' :: t => takeDigits t
      | t => ([], t)
    if intDs = [] ∧ fracDs = [] then .nan
    else
      let q := decimalValue intDs fracDs (parseExponent r2)
      .val (if neg then -q else q)

/-- JavaScript `parseInt(s, 10)`: skip leading whitespace, optional sign,
longest run of decimal digits; `NaN` (`none`) when no digit is found. -/
def jsParseInt (s : Str) : Option ℤ :=
  let s1 := s.dropWhile isJsSpace
  let (neg, s2) := stripSign s1
  let (ds, _) := takeDigits s2
  if ds = [] then none
  else some (if neg then -(digitsVal ds : ℤ) else (digitsVal ds : ℤ))

/-- Does `s` read, in full, as a signed decimal literal or `Infinity`?  Used
by the model of the `Number()` conversion. -/
def numberBody (s : Str) : Option JSNum :=
  let (neg, s2) := stripSign s
  if s2 = strOf "Infinity" then some (.inf !neg)
  else
    let (intDs, r1) := takeDigits s2
    let (fracDs, r2) : Str × Str :=
      match r1 with
      | '.' :: t => takeDigits t
      | t => ([], t)
    if intDs = [] ∧ fracDs = [] then none
    else
      match r2 with
      | 'e' :: r | 'E' :: r =>
        let (sgn, r3) : ℤ × Str :=
          match r with
          | '+' :: t => (1, t)
          | '-' :: t => (-1, t)
          | t => (1, t)
        let (eds, r4) := takeDigits r3
        if eds = [] ∨ r4 ≠ [] then none
        else
          let q := decimalValue intDs fracDs (sgn * (digitsVal eds : ℤ))
          some (.val (if neg then -q else q))
      | [] =>
        let q := decimalValue intDs fracDs 0
        some (.val (if neg then -q else q))
      | _ => none

/-- Digit value in an arbitrary base (for `0x`/`0o`/`0b` literals). -/
def radixDigitVal (c : Char) : Option ℕ :=
  if isDigitChar c then some (digitVal c)
  else if 'a' ≤ c ∧ c ≤ 'f' then some (c.toNat - 87)
  else if 'A' ≤ c ∧ c ≤ 'F' then some (c.toNat - 55)
  else none

/-- Value of a digit string in base `b`, `none` when a digit is out of range
or the string is empty. -/
def radixVal (b : ℕ) : Str → Option ℕ
  | [] => none
  | l => l.foldlM (fun a c => do
      let d ← radixDigitVal c
      if d < b then pure (b * a + d) else none) 0

/-- JavaScript `Number(string)` conversion: trim; empty string is `0`;
otherwise the string must parse, in full, as a numeric literal (decimal,
`Infinity`, or a `0x`/`0o`/`0b` radix literal), else `NaN`. -/
def jsNumber (s : Str) : JSNum :=
  let t := jsTrim s
  if t = [] then .val 0
  else
    match t with
    | '0' :: 'x' :: r | '0' :: 'X' :: r =>
      match radixVal 16 r with
      | some n => .val n
      | none => .nan
    | '0' :: 'o' :: r | '0' :: 'O' :: r =>
      match radixVal 8 r with
      | some n => .val n
      | none => .nan
    | '0' :: 'b' :: r | '0' :: 'B' :: r =>
      match radixVal 2 r with
      | some n => .val n
      | none => .nan
    | _ =>
      match numberBody t with
      | some n => n
      | none => .nan

/-! ## ParserUtils.ts -/

/-- Strip one trailing run of `'\n'`s (`replace(/\n+$/, '')`). -/
def dropTrailingRun (c : Char) (s : Str) : Str :=
  (s.reverse.dropWhile (· = c)).reverse

/-- `removeTrailingNewlines`: strip a trailing `\n`-run, then a trailing
`\r`-run. -/
def removeTrailingNewlines (s : Str) : Str :=
  dropTrailingRun '\r' (dropTrailingRun '\n' s)

/-- `sanitizeString`: replace every `\n` and `\r` by a space, then trim. -/
def sanitizeString (s : Str) : Str :=
  jsTrim (s.map (fun c => if c = '\n' ∨ c = '\r' then ' ' else c))

/-- `covertNsToMs`: nanoseconds to milliseconds; `0` for non-finite input. -/
def covertNsToMs : JSNum → ℚ
  | .val q => q / 1000000
  | _ => 0

/-- `extractTimestamp`: locate the first parenthesised field and `parseFloat`
its (trimmed) content; `0` when the parentheses are absent or misordered. -/
def extractTimestamp (executionTimePart : Str) : JSNum :=
  let start := jsIndexOfChar executionTimePart '(' + 1
  let stop := jsIndexOfChar executionTimePart ')'
  if start ≤ 0 ∨ stop ≤ start then .val 0
  else jsParseFloat (jsTrim (jsSubstring executionTimePart start stop))

/-- `extractLineNumber`: locate the first bracketed field and convert its
(trimmed) content with `Number(...)`; `0` when the brackets are absent or
misordered. -/
def extractLineNumber (lineNumberPart : Str) : JSNum :=
  let start := jsIndexOfChar lineNumberPart '[' + 1
  let stop := jsIndexOfChar lineNumberPart ']'
  if start ≤ 0 ∨ stop ≤ start then .val 0
  else jsNumber (jsTrim (jsSubstring lineNumberPart start stop))

/-- `extractRows`: split on `':'` and `parseInt` the (trimmed) second piece;
`0` for `undefined`, the empty string, a missing piece, or `NaN`. -/
def extractRows (rowsString : Option Str) : ℤ :=
  match rowsString with
  | none => 0
  | some s =>
    if s = [] then 0
    else
      let parts := splitOnChar ':' s
      if parts.length < 2 then 0
      else
        match jsParseInt (jsTrim ((parts.get? 1).getD [])) with
        | none => 0
        | some v => v

/-! ### `extractObject` and its word-boundary regex matching -/

/-- Regex word character (`\w` / the `\b` boundary class). -/
def isWordChar (c : Char) : Bool :=
  isDigitChar c || ('a' ≤ c && c ≤ 'z') || ('A' ≤ c && c ≤ 'Z') || c = '_'

/-- ASCII lower-casing (model of `toLowerCase` / the regex `i` flag on the
ASCII keywords involved). -/
def lowerAscii (c : Char) : Char :=
  if 'A' ≤ c ∧ c ≤ 'Z' then Char.ofNat (c.toNat + 32) else c

/-- Line-terminator characters (which the regex `.` does not match). -/
def isLineTerm (c : Char) : Bool :=
  c = '\n' || c = '\r' || c = ' ' || c = ' '

/-- Case-insensitive: does `s` start with the (lower-case) word `w`? -/
def ciHasPrefix (w s : Str) : Bool :=
  (s.take w.length).map lowerAscii = w

/-- Does `\bw\b` match at the head of `s`, where `prev` is the character
just before this position (`none` at the start of the string)? -/
def matchWordAt (w : Str) (prev : Option Char) (s : Str) : Bool :=
  (match prev with | none => true | some c => !isWordChar c) &&
  ciHasPrefix w s &&
  (match s.drop w.length with | [] => true | c :: _ => !isWordChar c)

/-- `search(/\bwhere\b/i)`: index of the first word-bounded, case-insensitive
`where`; `none` models `-1`. -/
def searchWhere (s : Str) : Option ℕ :=
  go none 0 s
where
  go : Option Char → ℕ → Str → Option ℕ
  | _, _, [] => none
  | prev, i, c :: rest =>
    if matchWordAt (strOf "where") prev (c :: rest) then some i
    else go (some c) (i + 1) rest

/-- Try `\bfrom\s+` at the head of `t` (with preceding character `prev`):
returns the length consumed (4 + the greedy whitespace run). -/
def fromTailLen (prev : Option Char) (t : Str) : Option ℕ :=
  if matchWordAt (strOf "from") prev t then
    let ws := (t.drop 4).takeWhile isJsSpace
    if ws = [] then none else some (4 + ws.length)
  else none

/-- `match(/.*\bfrom\s+/i)`: the regex engine tries each start position in
turn; at a start, the greedy `.*` stays within the current line and
backtracks to the *last* `\bfrom\s+` on it.  Returns `match[0].length` for
the first start position that succeeds (`none` models a `null` match). -/
def fromMatchLen (s : Str) : Option ℕ :=
  go none s
where
  tryAt (prev : Option Char) (sp : Str) : Option ℕ :=
    let lineLen := (sp.takeWhile (fun c => !isLineTerm c)).length
    (List.range (lineLen + 1)).reverse.findSome? fun j =>
      let prevAt : Option Char := if j = 0 then prev else sp.get? (j - 1)
      (fromTailLen prevAt (sp.drop j)).map (fun k => j + k)
  go : Option Char → Str → Option ℕ
  | prev, sp =>
    match tryAt prev sp with
    | some len => some len
    | none =>
      match sp with
      | [] => none
      | c :: rest => go (some c) rest

/-- `extractObject`: strip any `WHERE` clause, take everything after the
last `FROM` of the first line containing one, lower-cased; `''` when the
argument is `undefined`/empty or no `FROM` matches. -/
def extractObject (soqlString : Option Str) : Str :=
  match soqlString with
  | none => []
  | some s0 =>
    if s0 = [] then []
    else
      let cq := jsTrim s0
      let cq :=
        match searchWhere cq with
        | none => cq
        | some i => jsTrim (jsSubstring cq 0 i)
      match fromMatchLen cq with
      | none => []
      | some len => (jsTrim (cq.drop len)).map lowerAscii

/-! ### Governor-limit block parsing -/

/-- `split(/\r?\n|\r/)`: split on line breaks; the alternation tries
`\r?\n` first, so a `\r\n` pair is one separator. -/
def splitLinesJS : Str → List Str
  | [] => [[]]
  | '\r' :: '\n' :: rest => [] :: splitLinesJS rest
  | '\r' :: rest => [] :: splitLinesJS rest
  | '\n' :: rest => [] :: splitLinesJS rest
  | c :: rest =>
    match splitLinesJS rest with
    | [] => [[c]]               -- unreachable: the recursive result is never []
    | y :: ys => (c :: y) :: ys

/-- One parsed governor-limit entry. -/
structure LimitDetail where
  current : ℤ
  max : ℤ
  usagePercentage : ℤ
deriving DecidableEq, Repr

/-- The twelve default-initialised limit categories, in declaration order.
A JavaScript object with string keys is modelled as an association list
that preserves key insertion order. -/
def defaultLimitsObject : List (Str × LimitDetail) :=
  [strOf "SOQL_QUERIES", strOf "SOQL_ROWS", strOf "SOSL_SEARCHES",
   strOf "DML_STATEMENTS", strOf "DML_ROWS", strOf "CPU_TIME",
   strOf "HEAP_SIZE", strOf "CALLOUTS", strOf "EMAIL_INVOCATIONS",
   strOf "FUTURE_CALLS", strOf "QUEUEABLE_JOBS", strOf "MOBILE_APEX_PUSH"
  ].map (fun k => (k, ⟨0, 0, 0⟩))

/-- The label → category table `limitTypeByLogString`. -/
def limitTypeByLogString : List (Str × Str) :=
  [(strOf "Number of SOQL queries", strOf "SOQL_QUERIES"),
   (strOf "Number of query rows", strOf "SOQL_ROWS"),
   (strOf "Number of SOSL queries", strOf "SOSL_SEARCHES"),
   (strOf "Number of DML statements", strOf "DML_STATEMENTS"),
   (strOf "Number of Publish Immediate DML", strOf "DML_STATEMENTS"),
   (strOf "Number of DML rows", strOf "DML_ROWS"),
   (strOf "Maximum CPU time", strOf "CPU_TIME"),
   (strOf "Maximum heap size", strOf "HEAP_SIZE"),
   (strOf "Number of callouts", strOf "CALLOUTS"),
   (strOf "Number of Email Invocations", strOf "EMAIL_INVOCATIONS"),
   (strOf "Number of future calls", strOf "FUTURE_CALLS"),
   (strOf "Number of queueable jobs added to the queue", strOf "QUEUEABLE_JOBS"),
   (strOf "Number of Mobile Apex push calls", strOf "MOBILE_APEX_PUSH")]

/-- Property assignment `obj[k] = v` on an ordered association list:
overwrite in place when the key exists, else append. -/
def setKey : List (Str × LimitDetail) → Str → LimitDetail → List (Str × LimitDetail)
  | [], k, v => [(k, v)]
  | (k', v') :: rest, k, v =>
    if k' = k then (k, v) :: rest else (k', v') :: setKey rest k v

/-- The body of `parseUsageLine` (one line of the limits block).
`limitsObject[type]` with an unrecognised label makes `type` `undefined`,
which JavaScript coerces to the property key `"undefined"`. -/
def parseUsageLine (lo : List (Str × LimitDetail)) (line : Str) : List (Str × LimitDetail) :=
  let trimmedLine := jsTrim line
  if trimmedLine = [] then lo
  else
    match jsIndexOfChar trimmedLine ':' with
    | -1 => lo
    | colonIndex =>
      let limitType := jsTrim (jsSubstring trimmedLine 0 colonIndex)
      let usageString := jsTrim (jsSubstring trimmedLine (colonIndex + 1) trimmedLine.length)
      match jsIndexOfStr usageString (strOf " out of ") with
      | -1 => lo
      | outOfIndex =>
        let current? := jsParseInt (jsTrim (jsSubstring usageString 0 outOfIndex))
        let max? := jsParseInt (jsTrim (jsSubstring usageString (outOfIndex + 8) usageString.length))
        match current?, max? with
        | some current, some mx =>
          let key :=
            match (limitTypeByLogString.find? (fun p => p.1 = limitType)).map Prod.snd with
            | some t => t
            | none => strOf "undefined"
          setKey lo key
            ⟨current, mx, if mx > 0 then jsRound (((current : ℚ) / (mx : ℚ)) * 100) else 0⟩
        | _, _ => lo

/-- `parseGovernorLimits`: all twelve categories defaulted, then one
`parseUsageLine` per line of the block (split on `\r?\n|\r`). -/
def parseGovernorLimits (limitUsageString : Option Str) : List (Str × LimitDetail) :=
  match limitUsageString with
  | none => defaultLimitsObject
  | some s =>
    if jsTrim s = [] then defaultLimitsObject
    else (splitLinesJS s).foldl parseUsageLine defaultLimitsObject

/-! ## IdGenerator.ts

`next()` increments the counter and renders
`` `${prefix}_${counter.toString().padStart(padding, '0')}` ``; the parser
uses the default configuration `prefix = 'evt'`, `padding = 3`. -/

/-- One `next()` rendering of the counter value, at the default
configuration. -/
def idGen (counter : ℕ) : Str :=
  strOf "evt" ++ '_' :: padStart (natToStr counter) 3 '0'

/-! ## ApexLogParser.ts — data model

A JavaScript `TreeNode` object, minus its `children` property (trees are
modelled separately by `PTree`, children as a plain list — an absent
`children` array and an empty one are observationally equal for every read
the sources perform).  Optional TS fields are `Option`s. -/

structure TreeNode where
  id : Str
  parentId : Option Str := none
  type : Str
  name : Option Str := none
  lineNumber : Option JSNum := none
  query : Option Str := none
  object : Option Str := none
  rows : Option ℤ := none
  operation : Option Str := none
  message : Option Str := none
  request : Option Str := none
  response : Option Str := none
  namedCredentialRequest : Option Str := none
  namedCredentialResponse : Option Str := none
  namedCredentialResponseDetails : Option Str := none
  limits : Option (List (Str × LimitDetail)) := none
  timeStart : Option JSNum := none
  timeEnd : Option JSNum := none
  durationMs : Option ℚ := none
deriving DecidableEq, Repr

/-- A finished (sub)tree: node data plus ordered children. -/
inductive PTree : Type where
  | node : TreeNode → List PTree → PTree

/-- Data of a tree's root node. -/
def treeData : PTree → TreeNode
  | .node d _ => d

/-- Children of a tree's root node. -/
def treeKids : PTree → List PTree
  | .node _ kids => kids

/-- An open node on `nodeStack`: its mutable scalar data plus the children
completed so far.  The TS code appends a child to `parent.children` when the
child is *pushed* and mutates the child in place when it closes; since
`children` is only read after the parse loop, this is observationally the
same as attaching the finished child when it *closes* (or, for children
still open at the end, when the stack is collapsed), which is how the
functional model below realises it. -/
structure Frame where
  data : TreeNode
  kids : List PTree

/-- The parser's mutable state.  `stack.head?` is `currentNode` (the TS
`currentNode` field always equals the stack top, or `null` when the stack is
empty).  `doneRoot` records the (unique, bottom) frame if it is ever popped:
the TS field `rootNode` keeps referencing that object.  `createdIds` is a
ghost trace of every id handed out by `idGenerator.next()`, in order. -/
structure PState where
  stack : List Frame
  doneRoot : Option PTree
  counter : ℕ
  createdIds : List Str
  user : Option Str
  logLevels : List (Str × Str)

/-- `reset()`: fresh id generator, a fresh ROOT node (taking the first id),
stack containing just ROOT. -/
def initState : PState :=
  { stack := [⟨{ id := idGen 1, type := strOf "ROOT" }, []⟩],
    doneRoot := none,
    counter := 1,
    createdIds := [idGen 1],
    user := none,
    logLevels := [] }

/-- `idGenerator.next()`: increment the counter and render the id (also
recording it in the ghost trace). -/
def freshId (st : PState) : Str × PState :=
  let n := st.counter + 1
  (idGen n, { st with counter := n, createdIds := st.createdIds ++ [idGen n] })

/-- `eventData[eventData.length - 1]`. -/
def lastElem (l : List Str) : Option Str := jsIdx l ((l.length : ℤ) - 1)

/-- `closeNode(timestamp?)`: pop the top of the stack; when the timestamp is
truthy, stamp `timeEnd` and the rounded `durationMs` (duration `0` when
`timeStart` is falsy).  The finished subtree is attached to the new top
frame (it was already a member of `parent.children` in the TS object
graph); popping the bottom frame records it in `doneRoot`. -/
def closeNode (timestamp : Option JSNum) (st : PState) : PState :=
  match st.stack with
  | [] => st
  | f :: rest =>
    let d := f.data
    let d' :=
      match timestamp with
      | some t =>
        if t.truthy then
          let rawDuration : ℚ :=
            if jsTruthy d.timeStart then covertNsToMs (t.sub (d.timeStart.getD .nan)) else 0
          { d with timeEnd := some t, durationMs := some (round3 rawDuration) }
        else d
      | none => d
    let closed := PTree.node d' f.kids
    match rest with
    | [] => { st with stack := [], doneRoot := some closed }
    | g :: gs => { st with stack := ⟨g.data, g.kids ++ [closed]⟩ :: gs }

/-- `pushNode`: no-op when `currentNode` is `null`; otherwise push the node
(the TS child-append is deferred, see `Frame`). -/
def pushNode (node : TreeNode) (st : PState) : PState :=
  match st.stack with
  | [] => st
  | _ :: _ => { st with stack := ⟨node, []⟩ :: st.stack }

/-- The begin→end table `mapTypeByTypeExit`. -/
def mapTypeByTypeExit (ty : Str) : Option Str :=
  (([(strOf "CODE_UNIT_FINISHED", strOf "CODE_UNIT"),
     (strOf "METHOD_EXIT", strOf "METHOD"),
     (strOf "SOQL_EXECUTE_END", strOf "SOQL"),
     (strOf "DML_END", strOf "DML"),
     (strOf "EXECUTION_FINISHED", strOf "EXECUTION"),
     (strOf "FLOW_START_INTERVIEW_END", strOf "FLOW_START_INTERVIEW"),
     (strOf "FLOW_BULK_ELEMENT_END", strOf "FLOW_BULK_ELEMENT"),
     (strOf "FLOW_START_INTERVIEWS_END", strOf "FLOW"),
     (strOf "FLOW_ELEMENT_END", strOf "FLOW_ELEMENT"),
     (strOf "CALLOUT_RESPONSE", strOf "CALLOUT")]).find?
      (fun p => p.1 = ty)).map Prod.snd

/-- The `while (stack.length > 0 && top.type !== target) closeNode(ts)`
loop of `handleNodeExit`, with explicit fuel (each iteration pops one
frame, so `stack.length` fuel suffices; surplus fuel is harmless because
the loop also stops on its own guard). -/
def closeMismatches (target : Option Str) (ts : JSNum) : ℕ → PState → PState
  | 0, st => st
  | fuel + 1, st =>
    match st.stack with
    | [] => st
    | f :: _ =>
      if some f.data.type ≠ target then closeMismatches target ts fuel (closeNode (some ts) st)
      else st

/-- `handleNodeExit`: return if the stack is empty; unwind mismatching tops;
then close once more.  (The TS guard `if (top.type !== target)` around the
loop is redundant with the loop's own condition.) -/
def handleNodeExit (ts : JSNum) (ty : Str) (st : PState) : PState :=
  match st.stack with
  | [] => st
  | _ :: _ =>
    let target := mapTypeByTypeExit ty
    closeNode (some ts) (closeMismatches target ts st.stack.length st)

/-- The `while (current && current.type !== 'CODE_UNIT' && current.type
!== 'ROOT') closeNode(ts)` loop of `handleFatalError`, with explicit fuel
(each iteration pops one frame). -/
def unwindFatal (ts : JSNum) : ℕ → PState → PState
  | 0, st => st
  | fuel + 1, st =>
    match st.stack with
    | [] => st
    | f :: _ =>
      if f.data.type ≠ strOf "CODE_UNIT" ∧ f.data.type ≠ strOf "ROOT" then
        unwindFatal ts fuel (closeNode (some ts) st)
      else st

/-! ### Per-event handlers (`none` models a thrown `TypeError`) -/

def handleUserInfo (eventData : List Str) (st : PState) : PState :=
  { st with user := jsIdx eventData ((eventData.length : ℤ) - 3) }

def handleCodeUnitStarted (ts : JSNum) (eventData : List Str) (st : PState) : Option PState :=
  match st.stack with
  | [] => none
  | f :: _ =>
    let (i, st') := freshId st
    some (pushNode { id := i, parentId := some f.data.id, type := strOf "CODE_UNIT",
                     name := lastElem eventData, timeStart := some ts } st')

def handleMethodEntry (ts : JSNum) (eventData : List Str) (st : PState) : Option PState :=
  match st.stack with
  | [] => none
  | f :: _ =>
    match eventData.head? with
    | none => none          -- extractLineNumber(undefined) throws
    | some e0 =>
      let (i, st') := freshId st
      some (pushNode { id := i, parentId := some f.data.id, type := strOf "METHOD",
                       name := lastElem eventData, lineNumber := some (extractLineNumber e0),
                       timeStart := some ts } st')

def handleSoqlExecuteBegin (ts : JSNum) (eventData : List Str) (st : PState) : Option PState :=
  match st.stack with
  | [] => none
  | f :: _ =>
    let query := lastElem eventData
    let (i, st') := freshId st
    some (pushNode { id := i, parentId := some f.data.id, type := strOf "SOQL",
                     query := query, object := some (extractObject query),
                     timeStart := some ts } st')

def handleDmlBegin (ts : JSNum) (eventData : List Str) (st : PState) : Option PState :=
  match st.stack with
  | [] => none
  | f :: _ =>
    if eventData.length < 3 then none    -- eventData[len-3].split / [len-2].split throws
    else
      match eventData.head? with
      | none => none
      | some e0 =>
        let opPart := (jsIdx eventData ((eventData.length : ℤ) - 3)).getD []
        let objPart := (jsIdx eventData ((eventData.length : ℤ) - 2)).getD []
        let (i, st') := freshId st
        some (pushNode { id := i, parentId := some f.data.id, type := strOf "DML",
                         lineNumber := some (extractLineNumber e0),
                         operation := (splitOnChar ':' opPart).get? 1,
                         object := (splitOnChar ':' objPart).get? 1,
                         rows := some (extractRows (lastElem eventData)),
                         timeStart := some ts } st')

def handleExecutionStarted (ts : JSNum) (st : PState) : Option PState :=
  match st.stack with
  | [] => none
  | f :: _ =>
    let (i, st') := freshId st
    some (pushNode { id := i, parentId := some f.data.id, type := strOf "EXECUTION",
                     timeStart := some ts } st')

def handleFlowStartInterviewBegin (ts : JSNum) (eventData : List Str) (st : PState) : Option PState :=
  let flowName := lastElem eventData
  match st.stack with
  | [] => none
  | f :: rest =>
    let f' := if f.data.type = strOf "FLOW" then (⟨{ f.data with name := flowName }, f.kids⟩ : Frame) else f
    let st1 := { st with stack := f' :: rest }
    let (i, st') := freshId st1
    some (pushNode { id := i, parentId := some f'.data.id, type := strOf "FLOW_START_INTERVIEW",
                     name := flowName, timeStart := some ts } st')

def handleFlowElementBegin (ts : JSNum) (eventData : List Str) (st : PState) : Option PState :=
  match st.stack with
  | [] => none
  | f :: _ =>
    -- `eventData[len-2] + ' ' + eventData[len-1]`: JavaScript coerces a
    -- missing element to the string "undefined" in the concatenation.
    let nm := ((jsIdx eventData ((eventData.length : ℤ) - 2)).getD (strOf "undefined")) ++
              ' ' :: ((lastElem eventData).getD (strOf "undefined"))
    let (i, st') := freshId st
    some (pushNode { id := i, parentId := some f.data.id, type := strOf "FLOW_ELEMENT",
                     name := some nm, timeStart := some ts } st')

def handleFlowStartInterviewsBegin (ts : JSNum) (eventData : List Str) (st : PState) : Option PState :=
  match st.stack with
  | [] => none
  | f :: _ =>
    let (i, st') := freshId st
    some (pushNode { id := i, parentId := some f.data.id, type := strOf "FLOW",
                     name := lastElem eventData, timeStart := some ts } st')

def handleFlowBulkElementStart (ts : JSNum) (eventData : List Str) (st : PState) : Option PState :=
  match st.stack with
  | [] => none
  | f :: _ =>
    let (i, st') := freshId st
    some (pushNode { id := i, parentId := some f.data.id, type := strOf "FLOW_BULK_ELEMENT",
                     name := lastElem eventData, timeStart := some ts } st')

def handleCalloutRequest (ts : JSNum) (eventData : List Str) (st : PState) : Option PState :=
  match st.stack with
  | [] => none
  | f :: _ =>
    let (i, st') := freshId st
    some (pushNode { id := i, parentId := some f.data.id, type := strOf "CALLOUT",
                     request := lastElem eventData, timeStart := some ts } st')

def handleEnteringManagedPkg (ts : JSNum) (eventData : List Str) (st : PState) : Option PState :=
  match st.stack with
  | [] => none            -- this.currentNode.type throws
  | f :: _ =>
    if f.data.type = strOf "MANAGED_PKG" then some st
    else
      let (i, st') := freshId st
      some (pushNode { id := i, parentId := some f.data.id, type := strOf "MANAGED_PKG",
                       name := lastElem eventData, timeStart := some ts } st')

def handleLimitUsageForNs (ts : JSNum) (eventData : List Str) (st : PState) : Option PState :=
  match eventData.head? with
  | none => none          -- eventData[0].replace throws
  | some e0 =>
    match st.stack with
    | [] => none
    | f :: _ =>
      let ns := e0.filter (fun c => ¬(c = '(' ∨ c = ')'))    -- replace(/[()]/g, '')
      let (i, st') := freshId st
      some (closeNode none
        (pushNode { id := i, parentId := some f.data.id, type := strOf "LIMIT",
                    name := some ns,
                    limits := some (parseGovernorLimits (jsIdx eventData 1)),
                    timeStart := some ts } st'))

def handleFatalError (ts : JSNum) (eventData : List Str) (st : PState) : Option PState :=
  match st.stack with
  | [] => none            -- this.currentNode.id throws
  | f :: _ =>
    match lastElem eventData with
    | none => none        -- sanitizeString(undefined) throws
    | some msg =>
      let (i, st') := freshId st
      let st'' := pushNode { id := i, parentId := some f.data.id, type := strOf "EXCEPTION",
                             message := some (sanitizeString msg), timeStart := some ts } st'
      some (unwindFatal ts st''.stack.length st'')

/-- Mutate a field of the current (top-of-stack) node. -/
def mutateCurrent (g : TreeNode → TreeNode) (st : PState) : PState :=
  match st.stack with
  | [] => st
  | f :: rest => { st with stack := (⟨g f.data, f.kids⟩ : Frame) :: rest }

def handleNamedCredentialRequest (eventData : List Str) (st : PState) : Option PState :=
  match st.stack with
  | [] => none            -- this.currentNode.type throws
  | f :: _ =>
    if f.data.type = strOf "CALLOUT" then
      some (mutateCurrent (fun d => { d with namedCredentialRequest := lastElem eventData }) st)
    else some st

def handleNamedCredentialResponse (eventData : List Str) (st : PState) : Option PState :=
  match st.stack with
  | [] => none
  | f :: _ =>
    if f.data.type = strOf "CALLOUT" then
      some (mutateCurrent (fun d => { d with namedCredentialResponse := lastElem eventData }) st)
    else some st

def handleNamedCredentialResponseDetail (eventData : List Str) (st : PState) : Option PState :=
  match st.stack with
  | [] => none
  | f :: _ =>
    if f.data.type = strOf "CALLOUT" then
      some (mutateCurrent (fun d => { d with namedCredentialResponseDetails := lastElem eventData }) st)
    else some st

def handleSOQLExit (ts : JSNum) (eventData : List Str) (st : PState) : PState :=
  let st1 :=
    match st.stack with
    | f :: _ =>
      if f.data.type = strOf "SOQL" then
        mutateCurrent (fun d => { d with rows := some (extractRows (lastElem eventData)) }) st
      else st
    | [] => st
  handleNodeExit ts (strOf "SOQL_EXECUTE_END") st1

def handleCalloutResponse (ts : JSNum) (eventData : List Str) (st : PState) : PState :=
  let st1 :=
    match st.stack with
    | f :: _ =>
      if f.data.type = strOf "CALLOUT" then
        mutateCurrent (fun d => { d with response := lastElem eventData }) st
      else st
    | [] => st
  handleNodeExit ts (strOf "CALLOUT_RESPONSE") st1

/-! ### Dispatch and per-line parsing -/

/-- The `switch (eventType)` dispatcher of `parseLine`.  Unknown tags fall
through to the default branch (no-op). -/
def dispatchEvent (timestamp : JSNum) (eventType : Str) (eventData : List Str)
    (st : PState) : Option PState :=
  if eventType = strOf "USER_INFO" then some (handleUserInfo eventData st)
  else if eventType = strOf "CODE_UNIT_STARTED" then handleCodeUnitStarted timestamp eventData st
  else if eventType = strOf "LIMIT_USAGE_FOR_NS" then handleLimitUsageForNs timestamp eventData st
  else if eventType = strOf "CODE_UNIT_FINISHED" then some (handleNodeExit timestamp eventType st)
  else if eventType = strOf "METHOD_ENTRY" then handleMethodEntry timestamp eventData st
  else if eventType = strOf "METHOD_EXIT" then some (handleNodeExit timestamp eventType st)
  else if eventType = strOf "SOQL_EXECUTE_BEGIN" then handleSoqlExecuteBegin timestamp eventData st
  else if eventType = strOf "SOQL_EXECUTE_END" then some (handleSOQLExit timestamp eventData st)
  else if eventType = strOf "DML_BEGIN" then handleDmlBegin timestamp eventData st
  else if eventType = strOf "DML_END" then some (handleNodeExit timestamp eventType st)
  else if eventType = strOf "EXECUTION_STARTED" then handleExecutionStarted timestamp st
  else if eventType = strOf "EXECUTION_FINISHED" then some (handleNodeExit timestamp eventType st)
  else if eventType = strOf "FLOW_START_INTERVIEW_BEGIN" then handleFlowStartInterviewBegin timestamp eventData st
  else if eventType = strOf "FLOW_START_INTERVIEW_END" then some (handleNodeExit timestamp eventType st)
  else if eventType = strOf "FLOW_ELEMENT_BEGIN" then handleFlowElementBegin timestamp eventData st
  else if eventType = strOf "FLOW_ELEMENT_END" then some (handleNodeExit timestamp eventType st)
  else if eventType = strOf "FATAL_ERROR" then handleFatalError timestamp eventData st
  else if eventType = strOf "ENTERING_MANAGED_PKG" then handleEnteringManagedPkg timestamp eventData st
  else if eventType = strOf "CALLOUT_REQUEST" then handleCalloutRequest timestamp eventData st
  else if eventType = strOf "CALLOUT_RESPONSE" then some (handleCalloutResponse timestamp eventData st)
  else if eventType = strOf "NAMED_CREDENTIAL_REQUEST" then handleNamedCredentialRequest eventData st
  else if eventType = strOf "NAMED_CREDENTIAL_RESPONSE" then handleNamedCredentialResponse eventData st
  else if eventType = strOf "NAMED_CREDENTIAL_RESPONSE_DETAIL" then handleNamedCredentialResponseDetail eventData st
  else if eventType = strOf "FLOW_BULK_ELEMENT_BEGIN" then handleFlowBulkElementStart timestamp eventData st
  else if eventType = strOf "FLOW_BULK_ELEMENT_END" then some (handleNodeExit timestamp eventType st)
  else if eventType = strOf "FLOW_START_INTERVIEWS_BEGIN" then handleFlowStartInterviewsBegin timestamp eventData st
  else if eventType = strOf "FLOW_START_INTERVIEWS_END" then some (handleNodeExit timestamp eventType st)
  else some st

/-- The implicit-close test of `parseLine`: the current node is a
MANAGED_PKG and the event is not an entry into the same (by name) managed
package. -/
def managedPkgMismatch (eventType : Str) (eventData : List Str) (st : PState) : Prop :=
  match st.stack.head? with
  | some f =>
    f.data.type = strOf "MANAGED_PKG" ∧
      (eventType ≠ strOf "ENTERING_MANAGED_PKG" ∨
        (eventType = strOf "ENTERING_MANAGED_PKG" ∧ f.data.name ≠ lastElem eventData))
  | none => False

instance (eventType : Str) (eventData : List Str) (st : PState) :
    Decidable (managedPkgMismatch eventType eventData st) := by
  unfold managedPkgMismatch
  match st.stack.head? with
  | some f => exact inferInstance
  | none => exact inferInstance

/-- `parseLine`: split on `'|'`, skip short lines, extract the timestamp,
implicitly close a pending MANAGED_PKG if needed, then dispatch. -/
def parseLine (line : Str) (st : PState) : Option PState :=
  match splitOnChar '|' line with
  | executionTimePart :: eventType :: eventData =>
    let timestamp := extractTimestamp executionTimePart
    let st1 :=
      if managedPkgMismatch eventType eventData st then closeNode (some timestamp) st else st
    dispatchEvent timestamp eventType eventData st1
  | _ => some st              -- parts.length < 2: malformed line, ignored

/-! ### Whole-log parsing -/

/-- Does the regex `^\d{2}:\d{2}:\d{2}\.\d+(?: \(\d+\)\|)?` match at the
head of `s`?  Only the mandatory part decides matchability. -/
def startsTs (s : Str) : Bool :=
  match s with
  | a :: b :: c1 :: d :: e :: c2 :: f :: g :: dot :: rest =>
    isDigitChar a && isDigitChar b && c1 = ':' &&
    isDigitChar d && isDigitChar e && c2 = ':' &&
    isDigitChar f && isDigitChar g && dot = '.' &&
    (match rest with | h :: _ => isDigitChar h | [] => false)
  | _ => false

/-- A line-terminator position for the `m`-flag `^` anchor. -/
def isNlAnchor (c : Char) : Bool :=
  c = '\n' || c = '\r' || c = Char.ofNat 8232 || c = Char.ofNat 8233

/-- The lookahead split
`split(/(?=^\d{2}:\d{2}:\d{2}\.\d+(?: \(\d+\)\|)?)/m)`: cut (zero-width)
before every line start matching the timestamp pattern; a zero-width match
at position 0 does not split. -/
def splitChunksGo : Str → Str → List Str
  | [], acc => [acc.reverse]
  | c :: rest, acc =>
    if isNlAnchor c ∧ startsTs rest then (c :: acc).reverse :: splitChunksGo rest []
    else splitChunksGo rest (c :: acc)

/-- Split a log body into one chunk per event record. -/
def splitChunks (s : Str) : List Str := splitChunksGo s []

/-- `handleDebugLevels`: parse the header line's `Category,Level` pairs
(order-preserving; pairs with an empty category or a missing/empty level
are skipped). -/
def handleDebugLevels (line : Str) (st : PState) : PState :=
  let parts := splitOnChar ' ' line
  if parts.length < 2 then st
  else
    let levels := List.intercalate (strOf " ") (parts.drop 1)
    let levelPairs := splitOnChar ';' levels
    { st with
      logLevels := st.logLevels ++ levelPairs.filterMap (fun pair =>
        let ps := splitOnChar ',' pair
        match ps.get? 0, ps.get? 1 with
        | some t, some l => if t ≠ [] ∧ l ≠ [] then some (t, l) else none
        | _, _ => none) }

/-- The per-parse state computation of `parse`: reset, read the header
line, split the rest into event chunks and feed each (with trailing
newlines removed) through `parseLine`. -/
def parseState (log : Str) : Option PState :=
  let idx := jsIndexOfChar log '\n'
  let firstLine := if idx = -1 then log else log.take idx.toNat
  let restOfLog := if idx = -1 then ([] : Str) else log.drop (idx + 1).toNat
  let st1 := handleDebugLevels firstLine initState
  (splitChunks restOfLog).foldlM (fun st chunk => parseLine (removeTrailingNewlines chunk) st) st1

/-- Rebuild the tree from the remaining open frames: each open frame is the
last child of the frame below it (in TS the open child already sits in
`parent.children`). -/
def collapse : Frame → List Frame → PTree
  | f, [] => PTree.node f.data f.kids
  | f, g :: gs => collapse ⟨g.data, g.kids ++ [PTree.node f.data f.kids]⟩ gs

/-- The tree reachable from the TS `rootNode` reference at the end of a
parse. -/
def finalTree (st : PState) : Option PTree :=
  match st.stack with
  | [] => st.doneRoot
  | f :: rest => some (collapse f rest)

/-- A flattened event: a node's scalar fields (`children` removed — the
model's `TreeNode` already has no children) plus the `source` annotation. -/
structure EventNode where
  data : TreeNode
  source : Option Str
deriving DecidableEq, Repr

mutual

/-- `flattenEvents`: pre-order traversal, skipping ROOT-typed nodes,
annotating each event with the source filename. -/
def flattenEvents (fname : Str) : PTree → List EventNode
  | .node d kids =>
    (if d.type = strOf "ROOT" then [] else [⟨d, some fname⟩]) ++ flattenForest fname kids

/-- `flattenEvents` mapped over a child list. -/
def flattenForest (fname : Str) : List PTree → List EventNode
  | [] => []
  | t :: ts => flattenEvents fname t ++ flattenForest fname ts

end

/-- UTF-8 byte length (`Buffer.byteLength(log, 'utf8')`) of a string of
Unicode scalar values. -/
def utf8Len (s : Str) : ℕ :=
  (s.map (fun c =>
    if c.toNat < 0x80 then 1 else if c.toNat < 0x800 then 2
    else if c.toNat < 0x10000 then 3 else 4)).sum

/-- `(logSize / (1000*1000)).toFixed(5)` re-parsed by `parseFloat`:
rounding to 5 decimal places (ties away from zero; the operand is
non-negative). -/
def toFixed5Mb (bytes : ℕ) : ℚ :=
  (jsRound ((bytes : ℚ) / 1000000 * 100000) : ℚ) / 100000

/-- The `ParsedLog` output (meta fields inlined). -/
structure ParsedLog where
  filename : Str
  durationMs : ℚ
  sizeMb : ℚ
  logLevel : List (Str × Str)
  user : Option Str
  tree : Option PTree
  events : List EventNode

/-- `buildOutput`: total duration = rounded sum of the root children's
durations; size in MB; the tree and its flattened events. -/
def buildOutput (filename : Str) (logSize : ℕ) (st : PState) : ParsedLog :=
  let t? := finalTree st
  let kids := match t? with | some t => treeKids t | none => []
  let durationMs := round3 (kids.foldl (fun acc k => acc + ((treeData k).durationMs.getD 0)) 0)
  { filename := filename,
    durationMs := durationMs,
    sizeMb := if logSize = 0 then 0 else toFixed5Mb logSize,
    logLevel := st.logLevels,
    user := st.user,
    tree := t?,
    events := match t? with | some t => flattenEvents filename t | none => [] }

/-- `parse(log, filename)`: run the state machine and build the output
(`none` models an uncaught `TypeError` escaping `parse`). -/
def parse (log : Str) (filename : Str) : Option ParsedLog :=
  (parseState log).map (fun st => buildOutput filename (utf8Len log) st)

/-! ## ApexLogSplitter.ts -/

/-- The splitter's mutable state. -/
structure SplitState where
  currentLog : List Str
  numLogs : ℕ
  hasFoundFirstLog : Bool
deriving DecidableEq, Repr

/-- A fresh splitter. -/
def initSplitState : SplitState := ⟨[], 0, false⟩

/-- `isLogStart`: the boundary regex `/^\d+\.\d+\s+APEX_CODE,/`. -/
def isLogStart (line : Str) : Bool :=
  match takeDigits line with
  | (_ :: _, '.' :: r2) =>
    match takeDigits r2 with
    | (_ :: _, r3) =>
      (r3.takeWhile isJsSpace ≠ ([] : Str)) &&
        (strOf "APEX_CODE,").isPrefixOf (r3.dropWhile isJsSpace)
    | _ => false
  | _ => false

/-- `processLine`: on a boundary, bump the header count, emit the buffered
log (if one is open) and reseed the buffer; otherwise append to the buffer
once a first boundary has been seen.  Emissions (the callback invocations,
in order) are returned as `(joined log text, number)` pairs. -/
def processLine (line : Str) (st : SplitState) : SplitState × List (Str × ℕ) :=
  if isLogStart line then
    let numLogs := st.numLogs + 1
    let emits :=
      if st.hasFoundFirstLog ∧ st.currentLog ≠ [] then
        [(List.intercalate (strOf "\n") st.currentLog, numLogs)]
      else []
    (⟨[line], numLogs, true⟩, emits)
  else if st.hasFoundFirstLog then
    (⟨st.currentLog ++ [line], st.numLogs, st.hasFoundFirstLog⟩, [])
  else (st, [])

/-- `finalize()`: emit the remaining buffer, if non-empty. -/
def finalizeSplit (st : SplitState) : List (Str × ℕ) :=
  if st.currentLog ≠ [] then [(List.intercalate (strOf "\n") st.currentLog, st.numLogs)]
  else []

/-- Feed a sequence of lines through a fresh splitter and `finalize()`;
returns every callback invocation in order. -/
def runSplitter (lines : List Str) : List (Str × ℕ) :=
  let p := lines.foldl
    (fun (p : SplitState × List (Str × ℕ)) line =>
      let (st', es) := processLine line p.1
      (st', p.2 ++ es))
    (initSplitState, [])
  p.2 ++ finalizeSplit p.1

/-! ## Shared lemmas about `closeNode` -/

/-- The node-data mutation `closeNode` applies when given a truthy
timestamp. -/
def finalizeData (t : JSNum) (d : TreeNode) : TreeNode :=
  { d with timeEnd := some t,
           durationMs := some (round3
             (if jsTruthy d.timeStart then covertNsToMs (t.sub (d.timeStart.getD .nan)) else 0)) }

theorem closeNode_nil {st : PState} (o : Option JSNum) (h : st.stack = []) :
    closeNode o st = st := by
  cases st with
  | mk stk dr c ci u ll =>
    simp only at h
    subst h
    rfl

theorem closeNode_cons_truthy {st : PState} {f g : Frame} {gs : List Frame}
    (t : JSNum) (ht : t.truthy = true) (h : st.stack = f :: g :: gs) :
    closeNode (some t) st =
      { st with stack := (⟨g.data, g.kids ++ [PTree.node (finalizeData t f.data) f.kids]⟩ : Frame) :: gs } := by
  cases st with
  | mk stk dr c ci u ll =>
    simp only at h
    subst h
    simp [closeNode, finalizeData, ht]

theorem closeNode_cons_falsy {st : PState} {f g : Frame} {gs : List Frame}
    {o : Option JSNum} (ho : jsTruthy o = false) (h : st.stack = f :: g :: gs) :
    closeNode o st =
      { st with stack := (⟨g.data, g.kids ++ [PTree.node f.data f.kids]⟩ : Frame) :: gs } := by
  cases st with
  | mk stk dr c ci u ll =>
    simp only at h
    subst h
    cases o with
    | none => rfl
    | some t =>
      have ht : t.truthy = false := by simpa [jsTruthy] using ho
      simp [closeNode, ht]

theorem closeNode_single_truthy {st : PState} {f : Frame}
    (t : JSNum) (ht : t.truthy = true) (h : st.stack = [f]) :
    closeNode (some t) st =
      { st with stack := [], doneRoot := some (PTree.node (finalizeData t f.data) f.kids) } := by
  cases st with
  | mk stk dr c ci u ll =>
    simp only at h
    subst h
    simp [closeNode, finalizeData, ht]

/-- `closeNode` only pops: the types on the stack afterwards are the tail of
the types before. -/
theorem closeNode_stack_types {st : PState} {f : Frame} {rest : List Frame}
    (o : Option JSNum) (h : st.stack = f :: rest) :
    ((closeNode o st).stack).map (fun fr => fr.data.type) =
      rest.map (fun fr => fr.data.type) := by
  cases st with
  | mk stk dr c ci u ll =>
    simp only at h
    subst h
    cases rest with
    | nil => cases o with
      | none => rfl
      | some t => by_cases ht : t.truthy <;> simp [closeNode, ht]
    | cons g gs => cases o with
      | none => rfl
      | some t => by_cases ht : t.truthy <;> simp [closeNode, ht]

/-- `closeNode` does not touch the id-generator state (nor user/log-level
state). -/
theorem closeNode_ghost (o : Option JSNum) (st : PState) :
    (closeNode o st).counter = st.counter ∧
    (closeNode o st).createdIds = st.createdIds ∧
    (closeNode o st).user = st.user ∧
    (closeNode o st).logLevels = st.logLevels := by
  cases st with
  | mk stk dr c ci u ll =>
    cases stk with
    | nil => exact ⟨rfl, rfl, rfl, rfl⟩
    | cons f rest =>
      cases rest with
      | nil => cases o with
        | none => exact ⟨rfl, rfl, rfl, rfl⟩
        | some t => by_cases ht : t.truthy <;> simp [closeNode, ht]
      | cons g gs => cases o with
        | none => exact ⟨rfl, rfl, rfl, rfl⟩
        | some t => by_cases ht : t.truthy <;> simp [closeNode, ht]

/-! ## Claim C7 — governor-limit block parsing -/

/-- C7: the claim states that unrecognised limit labels are dropped
silently, adding no key, so that the result always has exactly the twelve
known categories.  The code instead executes `limitsObject[type] = {...}`
with `type === undefined` for an unrecognised label, which JavaScript
coerces to a literal `"undefined"` property: parsing `"Foo: 1 out of 2"`
yields the twelve defaulted categories *plus* a thirteenth key
`"undefined"` holding `{current: 1, max: 2, usagePercentage: 50}`. -/
theorem c7_unrecognized_label_adds_undefined_key :
    parseGovernorLimits (some (strOf "Foo: 1 out of 2")) =
      defaultLimitsObject ++
        [(strOf "undefined", ⟨1, 2, jsRound (((1 : ℤ) : ℚ) / ((2 : ℤ) : ℚ) * 100)⟩)] ∧
    jsRound (((1 : ℤ) : ℚ) / ((2 : ℤ) : ℚ) * 100) = 50 ∧
    defaultLimitsObject.length = 12 ∧
    strOf "undefined" ∉ defaultLimitsObject.map Prod.fst ∧
    parseGovernorLimits (some (strOf "Number of SOQL queries: 3 out of 100")) =
      (strOf "SOQL_QUERIES", ⟨3, 100, jsRound (((3 : ℤ) : ℚ) / ((100 : ℤ) : ℚ) * 100)⟩) ::
        defaultLimitsObject.tail ∧
    jsRound (((3 : ℤ) : ℚ) / ((100 : ℤ) : ℚ) * 100) = 3 :=
  ⟨rfl, by norm_num [jsRound], by decide, by decide, rfl, by norm_num [jsRound]⟩

/-! ## Claim C4 — multi-log stream splitter -/

/-- C4: for two boundary lines each followed by content, exactly two logs
are emitted with the right content (header line plus following lines up to
the next boundary), but the claimed 1-based sequence numbers are wrong: the
code increments `numLogs` *before* emitting the previous log, so the first
emitted log carries number 2 (not 1), and the final log's number is
duplicated.  A single-log stream is numbered correctly (1). -/
theorem c4_splitter_numbering_off_by_one :
    runSplitter [strOf "64.0 APEX_CODE,FINEST", strOf "a",
                 strOf "64.0 APEX_CODE,FINEST", strOf "b"] =
      [(strOf "64.0 APEX_CODE,FINEST" ++ '\n' :: strOf "a", 2),
       (strOf "64.0 APEX_CODE,FINEST" ++ '\n' :: strOf "b", 2)] ∧
    runSplitter [strOf "64.0 APEX_CODE,FINEST", strOf "a"] =
      [(strOf "64.0 APEX_CODE,FINEST" ++ '\n' :: strOf "a", 1)] := by decide

/-! ## Claim C8 — extraction totality and zero defaults -/

theorem jsIndexOfChar_of_not_mem (c : Char) :
    ∀ s : Str, c ∉ s → jsIndexOfChar s c = -1
  | [], _ => rfl
  | x :: xs, h => by
    have hx : ¬(x = c) := fun e => h (e ▸ List.mem_cons_self x xs)
    have hxs : c ∉ xs := fun m => h (List.mem_cons_of_mem _ m)
    simp [jsIndexOfChar, hx, jsIndexOfChar_of_not_mem c xs hxs]

theorem neg_one_le_jsIndexOfChar (c : Char) :
    ∀ s : Str, -1 ≤ jsIndexOfChar s c
  | [] => by simp [jsIndexOfChar]
  | x :: xs => by
    by_cases hx : x = c
    · simp [jsIndexOfChar, hx]
    · have ih := neg_one_le_jsIndexOfChar c xs
      simp only [jsIndexOfChar, hx, if_false]
      split
      · norm_num
      · omega

/-- C8 counterexample: the claim says `extractTimestamp` returns 0 for a
malformed (non-numeric) parenthesised value, and `extractLineNumber`
returns 0 for a malformed bracketed value; both in fact return `NaN`
(`parseFloat("abc")` and `Number("abc")` are `NaN`, which the functions
pass through). -/
theorem c8_malformed_gives_nan_not_zero :
    extractTimestamp (strOf "07:29:05.123 (abc)") = JSNum.nan ∧
    JSNum.nan ≠ JSNum.val 0 ∧
    extractLineNumber (strOf "12 [abc]") = JSNum.nan := by decide

/-- C8 amended: the extraction functions are total and never raise;
they return 0 whenever the delimiter pair is *absent*, but a present,
non-numeric delimited value yields `NaN` (not 0). -/
theorem c8_amended_zero_on_absent_nan_on_malformed :
    (∀ s : Str, '(' ∉ s → extractTimestamp s = JSNum.val 0) ∧
    (∀ s : Str, ')' ∉ s → extractTimestamp s = JSNum.val 0) ∧
    extractTimestamp (strOf "07:29:05.123 (abc)") = JSNum.nan ∧
    (∀ s : Str, '[' ∉ s → extractLineNumber s = JSNum.val 0) ∧
    (∀ s : Str, ']' ∉ s → extractLineNumber s = JSNum.val 0) ∧
    extractLineNumber (strOf "12 [abc]") = JSNum.nan := by
  refine ⟨fun s h => ?_, fun s h => ?_, by decide, fun s h => ?_, fun s h => ?_, by decide⟩
  · simp [extractTimestamp, jsIndexOfChar_of_not_mem _ s h]
  · have h1 := neg_one_le_jsIndexOfChar '(' s
    have h2 := jsIndexOfChar_of_not_mem _ s h
    simp only [extractTimestamp, h2]
    have : (-1 : ℤ) ≤ jsIndexOfChar s '(' + 1 := by omega
    simp [this]
  · simp [extractLineNumber, jsIndexOfChar_of_not_mem _ s h]
  · have h1 := neg_one_le_jsIndexOfChar '[' s
    have h2 := jsIndexOfChar_of_not_mem _ s h
    simp only [extractLineNumber, h2]
    have : (-1 : ℤ) ≤ jsIndexOfChar s '[' + 1 := by omega
    simp [this]

/-- C8 witness for the amended theorem. -/
theorem c8_amended_witness :
    extractTimestamp (strOf "noparens") = JSNum.val 0 ∧
    extractTimestamp (strOf "only open (123") = JSNum.val 0 ∧
    extractLineNumber (strOf "nothing") = JSNum.val 0 ∧
    extractLineNumber (strOf "open [12") = JSNum.val 0 :=
  ⟨c8_amended_zero_on_absent_nan_on_malformed.1 _ (by decide),
   c8_amended_zero_on_absent_nan_on_malformed.2.1 _ (by decide),
   c8_amended_zero_on_absent_nan_on_malformed.2.2.2.1 _ (by decide),
   c8_amended_zero_on_absent_nan_on_malformed.2.2.2.2.1 _ (by decide)⟩

/-! ## Claim C10 — closing with a zero timestamp -/

/-- C10: closing a node with the extracted-timestamp default `0` (falsy)
still pops it off the stack and attaches it to its parent (so it appears in
the output tree), but leaves its `timeEnd`/`durationMs` exactly as they
were — unset if the node was open; the fields are stamped only for a truthy
(nonzero, non-`NaN`) timestamp. -/
theorem c10_zero_timestamp_pops_without_finalizing
    (st : PState) (f g : Frame) (gs : List Frame) (h : st.stack = f :: g :: gs) :
    closeNode (some (JSNum.val 0)) st =
      { st with stack := (⟨g.data, g.kids ++ [PTree.node f.data f.kids]⟩ : Frame) :: gs } ∧
    (∀ o : Option JSNum, jsTruthy o = false →
      closeNode o st =
        { st with stack := (⟨g.data, g.kids ++ [PTree.node f.data f.kids]⟩ : Frame) :: gs }) ∧
    (∀ t : JSNum, t.truthy = true →
      closeNode (some t) st =
        { st with stack := (⟨g.data, g.kids ++ [PTree.node (finalizeData t f.data) f.kids]⟩ : Frame) :: gs } ∧
      (finalizeData t f.data).timeEnd = some t ∧
      (finalizeData t f.data).durationMs ≠ none) :=
  ⟨closeNode_cons_falsy (by decide) h,
   fun o ho => closeNode_cons_falsy ho h,
   fun t ht => ⟨closeNode_cons_truthy t ht h, rfl, by simp [finalizeData]⟩⟩

/-- C10 witness: a concrete open METHOD frame under ROOT, closed with
timestamp 0: it moves into the tree with `timeEnd`/`durationMs` still
unset. -/
theorem c10_witness :
    closeNode (some (JSNum.val 0))
      { stack := [⟨{ id := strOf "evt_002", type := strOf "METHOD",
                     timeStart := some (JSNum.val 5) }, []⟩,
                  ⟨{ id := strOf "evt_001", type := strOf "ROOT" }, []⟩],
        doneRoot := none, counter := 2, createdIds := [], user := none, logLevels := [] } =
      { stack := [⟨{ id := strOf "evt_001", type := strOf "ROOT" },
                  [PTree.node { id := strOf "evt_002", type := strOf "METHOD",
                                timeStart := some (JSNum.val 5) } []]⟩],
        doneRoot := none, counter := 2, createdIds := [], user := none, logLevels := [] } :=
  (c10_zero_timestamp_pops_without_finalizing _ _ _ _ rfl).1

/-! ## Claim C2 — FATAL_ERROR unwinding -/

/-- Frame types at which the fatal-error unwind loop stops. -/
def stopType (ty : Str) : Bool := ty = strOf "CODE_UNIT" || ty = strOf "ROOT"

theorem stopType_false_iff (ty : Str) :
    stopType ty = false ↔ (ty ≠ strOf "CODE_UNIT" ∧ ty ≠ strOf "ROOT") := by
  simp [stopType]

theorem unwindFatal_nil (ts : JSNum) (fuel : ℕ) {st : PState} (h : st.stack = []) :
    unwindFatal ts fuel st = st := by
  cases fuel with
  | zero => rfl
  | succ n => simp [unwindFatal, h]

theorem unwindFatal_stop (ts : JSNum) (fuel : ℕ) {st : PState} {f : Frame} {rest : List Frame}
    (h : st.stack = f :: rest) (hstop : stopType f.data.type = true) :
    unwindFatal ts (fuel + 1) st = st := by
  have : ¬(f.data.type ≠ strOf "CODE_UNIT" ∧ f.data.type ≠ strOf "ROOT") := by
    intro hc
    rw [← stopType_false_iff] at hc
    rw [hstop] at hc
    cases hc
  simp [unwindFatal, h, this]


/-- Behaviour of the fatal-error unwind loop on an arbitrary stack: it pops
(and finalizes) exactly the frames strictly above the first CODE_UNIT or
ROOT frame; that frame keeps its own node data (it is not closed). -/
theorem unwindFatal_spec (ts : JSNum) :
    ∀ (n : ℕ) (st : PState), st.stack.length ≤ n →
      ((unwindFatal ts n st).stack.map (fun fr => fr.data.type) =
        (st.stack.map (fun fr => fr.data.type)).dropWhile (fun ty => !stopType ty)) ∧
      (∀ g tl, st.stack.dropWhile (fun fr => !stopType fr.data.type) = g :: tl →
        ∃ kids', (unwindFatal ts n st).stack = (⟨g.data, kids'⟩ : Frame) :: tl) := by
  intro n
  induction n with
  | zero =>
    intro st hlen
    have h : st.stack = [] := List.length_eq_zero.mp (Nat.le_zero.mp hlen)
    refine ⟨by simp [unwindFatal, h], fun g tl hg => ?_⟩
    rw [h] at hg
    simp at hg
  | succ n ih =>
    intro st hlen
    cases hstk : st.stack with
    | nil =>
      refine ⟨by simp [unwindFatal_nil ts (n+1) hstk, hstk], fun g tl hg => ?_⟩
      simp at hg
    | cons f rest =>
      by_cases hstop : stopType f.data.type = true
      · have heq := unwindFatal_stop ts n hstk hstop
        refine ⟨?_, fun g tl hg => ?_⟩
        · rw [heq, hstk]
          simp [List.dropWhile, hstop]
        · simp only [List.dropWhile, hstop, Bool.not_true] at hg
          cases hg
          exact ⟨f.kids, by rw [heq, hstk]⟩
      · have hstop' : stopType f.data.type = false := by
          cases hb : stopType f.data.type
          · rfl
          · exact absurd hb hstop
        have hcond : f.data.type ≠ strOf "CODE_UNIT" ∧ f.data.type ≠ strOf "ROOT" :=
          (stopType_false_iff _).mp hstop'
        have hstep : unwindFatal ts (n + 1) st = unwindFatal ts n (closeNode (some ts) st) := by
          simp [unwindFatal, hstk, hcond]
        cases hrest : rest with
        | nil =>
          have hstk1 : st.stack = [f] := by rw [hstk, hrest]
          have hclose : (closeNode (some ts) st).stack = [] := by
            cases st with
            | mk stk dr c ci u ll =>
              simp only at hstk1
              subst hstk1
              cases ht : ts.truthy <;> simp [closeNode, ht]
          refine ⟨?_, fun g tl hg => ?_⟩
          · rw [hstep, unwindFatal_nil ts n hclose, hclose]
            simp [List.dropWhile, hstop']
          · simp [List.dropWhile, hstop'] at hg
        | cons g gs =>
          have hstk2 : st.stack = f :: g :: gs := by rw [hstk, hrest]
          have hclose : ∃ kids2, (closeNode (some ts) st).stack =
              (⟨g.data, kids2⟩ : Frame) :: gs := by
            cases ht : ts.truthy
            · exact ⟨g.kids ++ [PTree.node f.data f.kids],
                by rw [closeNode_cons_falsy (by simp [jsTruthy, ht]) hstk2]⟩
            · exact ⟨g.kids ++ [PTree.node (finalizeData ts f.data) f.kids],
                by rw [closeNode_cons_truthy ts ht hstk2]⟩
          obtain ⟨kids2, hclose⟩ := hclose
          have hlen2 : (closeNode (some ts) st).stack.length ≤ n := by
            rw [hclose]
            rw [hstk2] at hlen
            simp at hlen ⊢
            omega
          obtain ⟨ih1, ih2⟩ := ih (closeNode (some ts) st) hlen2
          refine ⟨?_, fun g0 tl hg0 => ?_⟩
          · rw [hstep, ih1, hclose]
            simp [List.dropWhile, hstop']
          · simp only [List.dropWhile, hstop', Bool.not_false] at hg0
            by_cases hgstop : stopType g.data.type = true
            · simp only [List.dropWhile, hgstop, Bool.not_true] at hg0
              cases hg0
              obtain ⟨kids', hk⟩ :=
                ih2 ⟨g.data, kids2⟩ gs (by rw [hclose]; simp [List.dropWhile, hgstop])
              exact ⟨kids', by rw [hstep, hk]⟩
            · have hgstop' : stopType g.data.type = false := by
                cases hb : stopType g.data.type
                · rfl
                · exact absurd hb hgstop
              simp only [List.dropWhile, hgstop', Bool.not_false] at hg0
              obtain ⟨kids', hk⟩ :=
                ih2 g0 tl (by rw [hclose]; simpa [List.dropWhile, hgstop'] using hg0)
              exact ⟨kids', by rw [hstep, hk]⟩

theorem unwindFatal_go (ts : JSNum) (fuel : ℕ) {st : PState} {f : Frame} {rest : List Frame}
    (h : st.stack = f :: rest) (hns : stopType f.data.type = false) :
    unwindFatal ts (fuel + 1) st = unwindFatal ts fuel (closeNode (some ts) st) := by
  have hcond : f.data.type ≠ strOf "CODE_UNIT" ∧ f.data.type ≠ strOf "ROOT" :=
    (stopType_false_iff _).mp hns
  simp [unwindFatal, h, hcond]

/-- C2 counterexample: from an open chain ROOT > CODE_UNIT > METHOD, a
FATAL_ERROR closes the METHOD (and the EXCEPTION leaf) but stops *at* the
CODE_UNIT: the CODE_UNIT frame is still on the stack afterwards, still open
(`timeEnd` unset) — contradicting the claim that every open node up to and
including the nearest enclosing CODE_UNIT is closed. -/
theorem c2_code_unit_remains_open :
    ∃ st', handleFatalError (JSNum.val 10) [strOf "boom"]
        { stack := [⟨{ id := strOf "evt_003", type := strOf "METHOD",
                       timeStart := some (JSNum.val 5) }, []⟩,
                    ⟨{ id := strOf "evt_002", type := strOf "CODE_UNIT",
                       timeStart := some (JSNum.val 2) }, []⟩,
                    ⟨{ id := strOf "evt_001", type := strOf "ROOT" }, []⟩],
          doneRoot := none, counter := 3, createdIds := [], user := none,
          logLevels := [] } = some st' ∧
      st'.stack.map (fun fr => fr.data.type) = [strOf "CODE_UNIT", strOf "ROOT"] ∧
      st'.stack.head?.map (fun fr => fr.data.timeEnd) = some none := by
  exact ⟨_, rfl, rfl, rfl⟩

/-- C2 amended: a FATAL_ERROR (with a payload) creates an EXCEPTION leaf
under the current node and then closes every open node *strictly inside*
the nearest enclosing CODE_UNIT (or ROOT) frame — the EXCEPTION leaf
included — while that CODE_UNIT/ROOT frame itself stays on the stack with
its node data untouched (still open). -/
theorem c2_amended_fatal_unwind (ts : JSNum) (eventData : List Str) (msg : Str)
    (st : PState) (f : Frame) (rest : List Frame)
    (hstack : st.stack = f :: rest) (hmsg : lastElem eventData = some msg) :
    ∃ st', handleFatalError ts eventData st = some st' ∧
      st'.stack.map (fun fr => fr.data.type) =
        (st.stack.map (fun fr => fr.data.type)).dropWhile (fun ty => !stopType ty) ∧
      (∀ g tl, st.stack.dropWhile (fun fr => !stopType fr.data.type) = g :: tl →
        ∃ kids', st'.stack = (⟨g.data, kids'⟩ : Frame) :: tl) ∧
      (stopType f.data.type = true → ts.truthy = true →
        st'.stack = (⟨f.data, f.kids ++
          [PTree.node (finalizeData ts
            { id := idGen (st.counter + 1), parentId := some f.data.id,
              type := strOf "EXCEPTION", message := some (sanitizeString msg),
              timeStart := some ts }) []]⟩ : Frame) :: rest) := by
  classical
  set excData : TreeNode :=
    { id := idGen (st.counter + 1), parentId := some f.data.id,
      type := strOf "EXCEPTION", message := some (sanitizeString msg),
      timeStart := some ts } with hexc
  set st2 : PState :=
    { st with stack := (⟨excData, []⟩ : Frame) :: f :: rest,
              counter := st.counter + 1,
              createdIds := st.createdIds ++ [idGen (st.counter + 1)] } with hst2
  have hcall : handleFatalError ts eventData st =
      some (unwindFatal ts (rest.length + 2) st2) := by
    cases st with
    | mk stk dr c ci u ll =>
      simp only at hstack
      subst hstack
      simp [handleFatalError, hmsg, freshId, pushNode, hst2, hexc]
  have hlen : st2.stack.length ≤ rest.length + 2 := by simp [hst2]
  obtain ⟨hspec1, hspec2⟩ := unwindFatal_spec ts (rest.length + 2) st2 hlen
  have hexcstop : stopType (strOf "EXCEPTION") = false := by decide
  refine ⟨unwindFatal ts (rest.length + 2) st2, hcall, ?_, ?_, ?_⟩
  · rw [hspec1, hstack]
    simp [hst2, List.dropWhile, hexcstop, hexc]
  · intro g tl hg
    apply hspec2
    rw [hstack] at hg
    simp only [hst2, List.dropWhile, hexc, hexcstop, Bool.not_false]
    exact hg
  · intro hstopf htr
    have hs2 : st2.stack = (⟨excData, []⟩ : Frame) :: f :: rest := by simp [hst2]
    have hexcstop2 : stopType ((⟨excData, []⟩ : Frame).data.type) = false := by
      simpa [hexc] using hexcstop
    have hstep := unwindFatal_go ts (rest.length + 1) hs2 hexcstop2
    have hclose := closeNode_cons_truthy ts htr hs2
    have hs3 : (closeNode (some ts) st2).stack =
        (⟨f.data, f.kids ++ [PTree.node (finalizeData ts excData) []]⟩ : Frame) :: rest := by
      rw [hclose]
    have hstop2 := unwindFatal_stop ts rest.length hs3 hstopf
    rw [hstep, hstop2, hclose]

/-! ## Claim C1 — the close protocol -/

theorem closeMismatches_nil (target : Option Str) (ts : JSNum) (fuel : ℕ)
    {st : PState} (h : st.stack = []) :
    closeMismatches target ts fuel st = st := by
  cases fuel with
  | zero => rfl
  | succ n => simp [closeMismatches, h]

theorem closeMismatches_stop (target : Option Str) (ts : JSNum) (fuel : ℕ)
    {st : PState} {f : Frame} {rest : List Frame}
    (h : st.stack = f :: rest) (heq : some f.data.type = target) :
    closeMismatches target ts fuel st = st := by
  cases fuel with
  | zero => rfl
  | succ n => simp [closeMismatches, h, heq]

theorem closeMismatches_go (target : Option Str) (ts : JSNum) (fuel : ℕ)
    {st : PState} {f : Frame} {rest : List Frame}
    (h : st.stack = f :: rest) (hne : some f.data.type ≠ target) :
    closeMismatches target ts (fuel + 1) st =
      closeMismatches target ts fuel (closeNode (some ts) st) := by
  simp [closeMismatches, h, hne]

theorem handleNodeExit_cons {st : PState} {f : Frame} {rest : List Frame}
    (ts : JSNum) (ty : Str) (h : st.stack = f :: rest) :
    handleNodeExit ts ty st =
      closeNode (some ts) (closeMismatches (mapTypeByTypeExit ty) ts st.stack.length st) := by
  simp [handleNodeExit, h]

/-- When no frame on the stack has the target variant, the mismatch loop
pops (and finalizes) every frame, leaving the stack empty. -/
theorem closeMismatches_exhaust (T : Str) (ts : JSNum) :
    ∀ (n : ℕ) (st : PState), st.stack.length ≤ n →
      (∀ fr ∈ st.stack, fr.data.type ≠ T) →
      (closeMismatches (some T) ts n st).stack = [] := by
  intro n
  induction n with
  | zero =>
    intro st hlen _
    have h : st.stack = [] := List.length_eq_zero.mp (Nat.le_zero.mp hlen)
    rw [closeMismatches_nil _ _ _ h]
    exact h
  | succ n ih =>
    intro st hlen hall
    cases hstk : st.stack with
    | nil =>
      rw [closeMismatches_nil _ _ _ hstk]
      exact hstk
    | cons f rest =>
      have hne : some f.data.type ≠ some T := by
        intro hc
        exact hall f (by rw [hstk]; exact List.mem_cons_self _ _) (Option.some_injective _ hc)
      rw [closeMismatches_go _ _ _ hstk hne]
      apply ih
      · rw [hstk] at hlen
        cases hrest : rest with
        | nil =>
          cases st with
          | mk stk dr c ci u ll =>
            simp only at hstk
            subst hstk
            subst hrest
            cases ht : ts.truthy <;> simp [closeNode, ht]
        | cons g gs =>
          have hstk2 : st.stack = f :: g :: gs := by rw [hstk, hrest]
          rw [hrest] at hlen
          cases ht : ts.truthy
          · rw [closeNode_cons_falsy (by simp [jsTruthy, ht]) hstk2]
            simp at hlen ⊢
            omega
          · rw [closeNode_cons_truthy ts ht hstk2]
            simp at hlen ⊢
            omega
      · intro fr hfr
        cases hrest : rest with
        | nil =>
          exfalso
          cases st with
          | mk stk dr c ci u ll =>
            simp only at hstk
            subst hstk
            subst hrest
            cases ht : ts.truthy <;> simp [closeNode, ht] at hfr
        | cons g gs =>
          have hstk2 : st.stack = f :: g :: gs := by rw [hstk, hrest]
          have hmem : fr.data.type = g.data.type ∨ fr ∈ gs := by
            cases ht : ts.truthy
            · rw [closeNode_cons_falsy (by simp [jsTruthy, ht]) hstk2] at hfr
              simp at hfr
              rcases hfr with h1 | h1
              · exact Or.inl (by rw [h1])
              · exact Or.inr h1
            · rw [closeNode_cons_truthy ts ht hstk2] at hfr
              simp at hfr
              rcases hfr with h1 | h1
              · exact Or.inl (by rw [h1])
              · exact Or.inr h1
          rcases hmem with h1 | h1
          · rw [h1]
            exact hall g (by rw [hstk, hrest]; simp)
          · exact hall fr (by rw [hstk, hrest]; simp [h1])

/-- C1: the close protocol.
(i) If the top of the stack is the variant the begin/end table associates
with the closing event, exactly that node is popped and finalized.
(ii) For a begin sequence `A, B` followed directly by an end matching `A`'s
variant, both close — `B` first, ending up nested inside `A`'s finished
subtree — and each duration is computed from that node's own `timeStart`.
(iii) `finalizeData` really uses the node's own interval.
(iv) If no frame carries the target variant, the loop pops-and-finalizes
until the stack is exhausted, and the final close is then a no-op. -/
theorem c1_close_protocol :
    (∀ (st : PState) (f g : Frame) (gs : List Frame) (ts : JSNum) (ty T : Str),
      mapTypeByTypeExit ty = some T → st.stack = f :: g :: gs →
      f.data.type = T → ts.truthy = true →
      handleNodeExit ts ty st =
        { st with stack :=
            (⟨g.data, g.kids ++ [PTree.node (finalizeData ts f.data) f.kids]⟩ : Frame) :: gs }) ∧
    (∀ (st : PState) (fB fA g : Frame) (gs : List Frame) (ts : JSNum) (ty T : Str),
      mapTypeByTypeExit ty = some T → st.stack = fB :: fA :: g :: gs →
      fB.data.type ≠ T → fA.data.type = T → ts.truthy = true →
      handleNodeExit ts ty st =
        { st with stack := (⟨g.data, g.kids ++
            [PTree.node (finalizeData ts fA.data)
              (fA.kids ++ [PTree.node (finalizeData ts fB.data) fB.kids])]⟩ : Frame) :: gs }) ∧
    (∀ (d : TreeNode) (b e : ℚ), d.timeStart = some (JSNum.val b) → b ≠ 0 →
      (finalizeData (JSNum.val e) d).durationMs = some (round3 ((e - b) / 1000000))) ∧
    (∀ (st : PState) (ts : JSNum) (ty T : Str),
      mapTypeByTypeExit ty = some T →
      (∀ fr ∈ st.stack, fr.data.type ≠ T) →
      (handleNodeExit ts ty st).stack = [] ∧
      closeNode (some ts) (handleNodeExit ts ty st) = handleNodeExit ts ty st) := by
  refine ⟨?_, ?_, ?_, ?_⟩
  · intro st f g gs ts ty T hmap h htype htruthy
    rw [handleNodeExit_cons ts ty h]
    rw [closeMismatches_stop _ _ _ h (by rw [htype, hmap])]
    exact closeNode_cons_truthy ts htruthy h
  · intro st fB fA g gs ts ty T hmap h hBne hAeq htruthy
    rw [handleNodeExit_cons ts ty h]
    have hlen : st.stack.length = gs.length + 3 := by rw [h]; simp
    rw [hlen]
    rw [closeMismatches_go _ _ _ h (by rw [hmap]; simpa using hBne)]
    have hcB := closeNode_cons_truthy ts htruthy h
    rw [hcB]
    have hstackB : ({ st with stack :=
        (⟨fA.data, fA.kids ++ [PTree.node (finalizeData ts fB.data) fB.kids]⟩ : Frame) :: g :: gs } :
          PState).stack =
        (⟨fA.data, fA.kids ++ [PTree.node (finalizeData ts fB.data) fB.kids]⟩ : Frame) :: g :: gs := rfl
    rw [closeMismatches_stop _ _ _ hstackB (by rw [hAeq, hmap])]
    rw [closeNode_cons_truthy ts htruthy hstackB]
  · intro d b e hts hb
    simp [finalizeData, jsTruthy, JSNum.truthy, hts, hb, JSNum.sub, covertNsToMs]
  · intro st ts ty T hmap hall
    cases hstk : st.stack with
    | nil =>
      have h1 : handleNodeExit ts ty st = st := by simp [handleNodeExit, hstk]
      rw [h1]
      exact ⟨hstk, closeNode_nil _ hstk⟩
    | cons f rest =>
      rw [handleNodeExit_cons ts ty hstk, hmap]
      have hex := closeMismatches_exhaust T ts st.stack.length st (le_refl _) hall
      rw [closeNode_nil _ hex]
      exact ⟨hex, closeNode_nil _ hex⟩

/-- C1 witness: the four parts of the close protocol at concrete states.
`METHOD_EXIT` with a METHOD on top pops exactly it; `CODE_UNIT_FINISHED`
over `[METHOD, CODE_UNIT, ROOT]` closes the METHOD first (nested inside the
finished CODE_UNIT) and then the CODE_UNIT; durations come from each node's
own start; `DML_END` with no DML anywhere empties the stack and the final
close is a no-op. -/
theorem c1_close_protocol_witness :
    handleNodeExit (JSNum.val 9) (strOf "METHOD_EXIT")
      { stack := [⟨{ id := strOf "evt_002", type := strOf "METHOD",
                     timeStart := some (JSNum.val 3) }, []⟩,
                  ⟨{ id := strOf "evt_001", type := strOf "ROOT" }, []⟩],
        doneRoot := none, counter := 2, createdIds := [], user := none, logLevels := [] } =
      { stack := [⟨{ id := strOf "evt_001", type := strOf "ROOT" },
                  [PTree.node (finalizeData (JSNum.val 9)
                    { id := strOf "evt_002", type := strOf "METHOD",
                      timeStart := some (JSNum.val 3) }) []]⟩],
        doneRoot := none, counter := 2, createdIds := [], user := none, logLevels := [] } ∧
    handleNodeExit (JSNum.val 9) (strOf "CODE_UNIT_FINISHED")
      { stack := [⟨{ id := strOf "evt_003", type := strOf "METHOD",
                     timeStart := some (JSNum.val 3) }, []⟩,
                  ⟨{ id := strOf "evt_002", type := strOf "CODE_UNIT",
                     timeStart := some (JSNum.val 2) }, []⟩,
                  ⟨{ id := strOf "evt_001", type := strOf "ROOT" }, []⟩],
        doneRoot := none, counter := 3, createdIds := [], user := none, logLevels := [] } =
      { stack := [⟨{ id := strOf "evt_001", type := strOf "ROOT" },
                  [PTree.node (finalizeData (JSNum.val 9)
                      { id := strOf "evt_002", type := strOf "CODE_UNIT",
                        timeStart := some (JSNum.val 2) })
                    [PTree.node (finalizeData (JSNum.val 9)
                      { id := strOf "evt_003", type := strOf "METHOD",
                        timeStart := some (JSNum.val 3) }) []]]⟩],
        doneRoot := none, counter := 3, createdIds := [], user := none, logLevels := [] } ∧
    (finalizeData (JSNum.val 9)
      { id := strOf "evt_003", type := strOf "METHOD",
        timeStart := some (JSNum.val 3) }).durationMs =
      some (round3 ((9 - 3) / 1000000)) ∧
    ((handleNodeExit (JSNum.val 9) (strOf "DML_END")
      { stack := [⟨{ id := strOf "evt_001", type := strOf "ROOT" }, []⟩],
        doneRoot := none, counter := 1, createdIds := [], user := none,
        logLevels := [] }).stack = []) :=
  ⟨c1_close_protocol.1 _ _ _ _ _ _ _ (by decide) rfl rfl (by decide),
   c1_close_protocol.2.1 _ _ _ _ _ _ _ _ (by decide) rfl (by decide) rfl (by decide),
   c1_close_protocol.2.2.1 _ 3 9 rfl (by norm_num),
   (c1_close_protocol.2.2.2 _ (JSNum.val 9) (strOf "DML_END") (strOf "DML")
     (by decide) (by decide)).1⟩

/-- C2 witness for the amended theorem: a SOQL open inside a CODE_UNIT; the
fatal error closes the SOQL (and the EXCEPTION leaf), leaving exactly
`[CODE_UNIT, ROOT]` open. -/
theorem c2_amended_witness :
    ∃ st', handleFatalError (JSNum.val 10) [strOf "oops"]
        { stack := [⟨{ id := strOf "evt_004", type := strOf "SOQL",
                       timeStart := some (JSNum.val 3) }, []⟩,
                    ⟨{ id := strOf "evt_002", type := strOf "CODE_UNIT" }, []⟩,
                    ⟨{ id := strOf "evt_001", type := strOf "ROOT" }, []⟩],
          doneRoot := none, counter := 4, createdIds := [], user := none,
          logLevels := [] } = some st' ∧
      st'.stack.map (fun fr => fr.data.type) = [strOf "CODE_UNIT", strOf "ROOT"] := by
  obtain ⟨st', h1, h2, -, -⟩ :=
    c2_amended_fatal_unwind (JSNum.val 10) [strOf "oops"] (strOf "oops")
      { stack := [⟨{ id := strOf "evt_004", type := strOf "SOQL",
                     timeStart := some (JSNum.val 3) }, []⟩,
                  ⟨{ id := strOf "evt_002", type := strOf "CODE_UNIT" }, []⟩,
                  ⟨{ id := strOf "evt_001", type := strOf "ROOT" }, []⟩],
        doneRoot := none, counter := 4, createdIds := [], user := none,
        logLevels := [] }
      ⟨{ id := strOf "evt_004", type := strOf "SOQL",
         timeStart := some (JSNum.val 3) }, []⟩
      [⟨{ id := strOf "evt_002", type := strOf "CODE_UNIT" }, []⟩,
       ⟨{ id := strOf "evt_001", type := strOf "ROOT" }, []⟩]
      rfl rfl
  exact ⟨st', h1, by rw [h2]; decide⟩

/-! ## Claim C3 — implicit close of managed packages -/

/-- C3 counterexample: the claim says the MANAGED_PKG node is "closed
(finalized with the incoming event's timestamp)" for *every* parsed event
line.  On a line whose timestamp field is absent/malformed the extracted
timestamp is the falsy default 0: the node *is* popped before dispatch,
but it is not finalized — its `timeEnd` stays unset rather than being the
extracted timestamp. -/
theorem c3_zero_timestamp_close_not_finalized :
    ∃ st', parseLine (strOf "x|USER_DEBUG")
        { stack := [⟨{ id := strOf "evt_002", type := strOf "MANAGED_PKG",
                       name := some (strOf "ns1"), timeStart := some (JSNum.val 3) }, []⟩,
                    ⟨{ id := strOf "evt_001", type := strOf "ROOT" }, []⟩],
          doneRoot := none, counter := 2, createdIds := [], user := none,
          logLevels := [] } = some st' ∧
      st'.stack.map (fun fr => fr.data.type) = [strOf "ROOT"] ∧
      st'.stack.head?.map (fun fr => fr.kids.map (fun t => (treeData t).timeEnd)) =
        some [none] :=
  ⟨_, rfl, rfl, rfl⟩

/-- C3 amended: whenever the current node is a MANAGED_PKG and the incoming
parsed line (≥ 2 fields) is not an `ENTERING_MANAGED_PKG` for the same
package name, `parseLine` closes the MANAGED_PKG node *before* dispatching
the event — the node is popped and attached to its parent, and it is
finalized with the line's extracted timestamp exactly when that timestamp
is truthy (nonzero, non-NaN).  This holds for every event type, closing
events and unknown tags included. -/
theorem c3_amended_managed_pkg_implicit_close
    (line p0 ty : Str) (eventData : List Str) (st : PState)
    (f g : Frame) (gs : List Frame)
    (hsplit : splitOnChar '|' line = p0 :: ty :: eventData)
    (hstack : st.stack = f :: g :: gs)
    (htype : f.data.type = strOf "MANAGED_PKG")
    (hcond : ty ≠ strOf "ENTERING_MANAGED_PKG" ∨ f.data.name ≠ lastElem eventData) :
    parseLine line st =
      dispatchEvent (extractTimestamp p0) ty eventData
        (closeNode (some (extractTimestamp p0)) st) ∧
    (closeNode (some (extractTimestamp p0)) st).stack =
      (⟨g.data, g.kids ++
        [PTree.node
          (if (extractTimestamp p0).truthy then finalizeData (extractTimestamp p0) f.data
           else f.data) f.kids]⟩ : Frame) :: gs := by
  have hmm : managedPkgMismatch ty eventData st := by
    unfold managedPkgMismatch
    rw [hstack]
    refine ⟨htype, ?_⟩
    by_cases he : ty = strOf "ENTERING_MANAGED_PKG"
    · rcases hcond with hc | hc
      · exact absurd he hc
      · exact Or.inr ⟨he, hc⟩
    · exact Or.inl he
  constructor
  · simp [parseLine, hsplit, hmm]
  · cases ht : (extractTimestamp p0).truthy
    · rw [if_neg (by simp [ht])]
      rw [closeNode_cons_falsy
        (show jsTruthy (some (extractTimestamp p0)) = false by simp [jsTruthy, ht]) hstack]
    · rw [if_pos (by simp [ht])]
      rw [closeNode_cons_truthy _ ht hstack]

/-- C3 witness: a `USER_DEBUG` line with a valid timestamp closes the
pending MANAGED_PKG (finalized, since the timestamp is truthy) before
dispatch. -/
theorem c3_witness :
    (closeNode (some (extractTimestamp (strOf "00:00:00.0 (7)")))
      { stack := [⟨{ id := strOf "evt_002", type := strOf "MANAGED_PKG",
                     name := some (strOf "ns1"), timeStart := some (JSNum.val 3) }, []⟩,
                  ⟨{ id := strOf "evt_001", type := strOf "ROOT" }, []⟩],
        doneRoot := none, counter := 2, createdIds := [], user := none,
        logLevels := [] }).stack =
      (⟨{ id := strOf "evt_001", type := strOf "ROOT" },
        [] ++ [PTree.node
          (if (extractTimestamp (strOf "00:00:00.0 (7)")).truthy then
            finalizeData (extractTimestamp (strOf "00:00:00.0 (7)"))
              { id := strOf "evt_002", type := strOf "MANAGED_PKG",
                name := some (strOf "ns1"), timeStart := some (JSNum.val 3) }
           else
            { id := strOf "evt_002", type := strOf "MANAGED_PKG",
              name := some (strOf "ns1"), timeStart := some (JSNum.val 3) }) []]⟩ : Frame) :: [] :=
  (c3_amended_managed_pkg_implicit_close
    (strOf "00:00:00.0 (7)|USER_DEBUG") (strOf "00:00:00.0 (7)") (strOf "USER_DEBUG") []
    { stack := [⟨{ id := strOf "evt_002", type := strOf "MANAGED_PKG",
                   name := some (strOf "ns1"), timeStart := some (JSNum.val 3) }, []⟩,
                ⟨{ id := strOf "evt_001", type := strOf "ROOT" }, []⟩],
      doneRoot := none, counter := 2, createdIds := [], user := none, logLevels := [] }
    ⟨{ id := strOf "evt_002", type := strOf "MANAGED_PKG",
       name := some (strOf "ns1"), timeStart := some (JSNum.val 3) }, []⟩
    ⟨{ id := strOf "evt_001", type := strOf "ROOT" }, []⟩ []
    (by decide) rfl rfl (Or.inl (by decide))).2

/-! ## Claim C9 — flattening -/

mutual

/-- Depth-first pre-order listing of all node data in a tree. -/
def preorder : PTree → List TreeNode
  | .node d kids => d :: preorderForest kids

/-- `preorder` over a child list. -/
def preorderForest : List PTree → List TreeNode
  | [] => []
  | t :: ts => preorder t ++ preorderForest ts

end

mutual

theorem flattenEvents_eq_preorder (fname : Str) :
    ∀ t : PTree, flattenEvents fname t =
      ((preorder t).filter (fun d => decide (d.type ≠ strOf "ROOT"))).map
        (fun d => (⟨d, some fname⟩ : EventNode))
  | .node d kids => by
    rw [flattenEvents, preorder, flattenForest_eq_preorder fname kids]
    by_cases hd : d.type = strOf "ROOT" <;> simp [hd]

theorem flattenForest_eq_preorder (fname : Str) :
    ∀ ts : List PTree, flattenForest fname ts =
      ((preorderForest ts).filter (fun d => decide (d.type ≠ strOf "ROOT"))).map
        (fun d => (⟨d, some fname⟩ : EventNode))
  | [] => by simp [flattenForest, preorderForest]
  | t :: ts => by
    rw [flattenForest, preorderForest, flattenEvents_eq_preorder fname t,
        flattenForest_eq_preorder fname ts, List.filter_append, List.map_append]

end

/-- C9: `flattenEvents` is exactly the depth-first pre-order traversal of
the tree with ROOT-typed nodes excluded, each node projected to its scalar
fields (no `children`) and annotated with the source filename; in
particular a tree root→[X,Y], X→[Z] flattens to `[X, Z, Y]`. -/
theorem c9_flatten_is_preorder :
    (∀ (fname : Str) (t : PTree),
      flattenEvents fname t =
        ((preorder t).filter (fun d => decide (d.type ≠ strOf "ROOT"))).map
          (fun d => (⟨d, some fname⟩ : EventNode))) ∧
    (∀ (fname : Str) (droot dX dY dZ : TreeNode),
      droot.type = strOf "ROOT" → dX.type ≠ strOf "ROOT" → dY.type ≠ strOf "ROOT" →
      dZ.type ≠ strOf "ROOT" →
      flattenEvents fname
        (PTree.node droot [PTree.node dX [PTree.node dZ []], PTree.node dY []]) =
        [⟨dX, some fname⟩, ⟨dZ, some fname⟩, ⟨dY, some fname⟩]) := by
  constructor
  · exact flattenEvents_eq_preorder
  · intro fname droot dX dY dZ hroot hX hY hZ
    simp [flattenEvents, flattenForest, hroot, hX, hY, hZ]

/-- C9 witness: the `[X, Z, Y]` ordering at a concrete tree. -/
theorem c9_flatten_witness :
    flattenEvents (strOf "f.log")
      (PTree.node { id := strOf "evt_001", type := strOf "ROOT" }
        [PTree.node { id := strOf "evt_002", type := strOf "CODE_UNIT" }
          [PTree.node { id := strOf "evt_003", type := strOf "METHOD" } []],
         PTree.node { id := strOf "evt_004", type := strOf "SOQL" } []]) =
      [⟨{ id := strOf "evt_002", type := strOf "CODE_UNIT" }, some (strOf "f.log")⟩,
       ⟨{ id := strOf "evt_003", type := strOf "METHOD" }, some (strOf "f.log")⟩,
       ⟨{ id := strOf "evt_004", type := strOf "SOQL" }, some (strOf "f.log")⟩] :=
  c9_flatten_is_preorder.2 (strOf "f.log") _ _ _ _ rfl (by decide) (by decide) (by decide)

/-! ## Claim C6 — identifier generation -/

theorem digitVal_digitChar : ∀ d < 10, digitVal (Nat.digitChar d) = d := by decide

theorem digitsVal_append_single (xs : Str) (c : Char) :
    digitsVal (xs ++ [c]) = 10 * digitsVal xs + digitVal c := by
  simp [digitsVal, List.foldl_append]

theorem natToStrAux_val : ∀ (fuel n : ℕ), n < fuel → digitsVal (natToStrAux fuel n) = n := by
  intro fuel
  induction fuel with
  | zero => intro n h; omega
  | succ fuel ih =>
    intro n h
    by_cases h10 : n < 10
    · simp [natToStrAux, h10, digitsVal, digitVal_digitChar n h10]
    · have hrec : n / 10 < fuel := by
        have h1 : n / 10 < n := Nat.div_lt_self (by omega) (by omega)
        omega
      rw [natToStrAux, if_neg h10, digitsVal_append_single, ih _ hrec,
        digitVal_digitChar _ (Nat.mod_lt _ (by omega))]
      omega

theorem digitsVal_natToStr (n : ℕ) : digitsVal (natToStr n) = n :=
  natToStrAux_val (n + 1) n (Nat.lt_succ_self n)

theorem digitsVal_replicate_zero_append (k : ℕ) (s : Str) :
    digitsVal (List.replicate k '0' ++ s) = digitsVal s := by
  induction k with
  | zero => rfl
  | succ k ih =>
    have : List.replicate (k + 1) '0' ++ s = '0' :: (List.replicate k '0' ++ s) := by
      simp [List.replicate_succ]
    rw [this]
    show List.foldl (fun a c => 10 * a + digitVal c) (10 * 0 + digitVal '0')
      (List.replicate k '0' ++ s) = digitsVal s
    have h0 : 10 * 0 + digitVal '0' = 0 := by decide
    rw [h0]
    exact ih

theorem digitsVal_padStart (s : Str) (n : ℕ) :
    digitsVal (padStart s n '0') = digitsVal s := by
  unfold padStart
  by_cases h : s.length ≥ n
  · simp [h]
  · simp only [h, if_false]
    exact digitsVal_replicate_zero_append _ s

/-- `idGen` is injective: distinct counter values render to distinct id
strings (zero-padding cannot collide because the numeric value is
recoverable from the rendered digits). -/
theorem idGen_inj (m n : ℕ) (h : idGen m = idGen n) : m = n := by
  unfold idGen at h
  have h2 : padStart (natToStr m) 3 '0' = padStart (natToStr n) 3 '0' := by
    have := List.append_cancel_left h
    exact List.tail_eq_of_cons_eq this
  have h3 := congrArg digitsVal h2
  rw [digitsVal_padStart, digitsVal_padStart, digitsVal_natToStr, digitsVal_natToStr] at h3
  exact h3

/-- The id-trace invariant: the ids handed out so far are exactly
`idGen 1 .. idGen counter`, in order. -/
def IdInv (st : PState) : Prop :=
  st.createdIds = (List.range st.counter).map (fun i => idGen (i + 1)) ∧ 1 ≤ st.counter

theorem idInv_initState : IdInv initState := by
  constructor
  · rfl
  · exact le_refl 1

theorem idInv_of_ghost {st st' : PState}
    (hc : st'.counter = st.counter) (hi : st'.createdIds = st.createdIds) :
    IdInv st → IdInv st' := by
  intro ⟨h1, h2⟩
  exact ⟨by rw [hc, hi]; exact h1, by rw [hc]; exact h2⟩

theorem idInv_freshId {st : PState} (h : IdInv st) : IdInv (freshId st).2 := by
  obtain ⟨h1, h2⟩ := h
  constructor
  · show st.createdIds ++ [idGen (st.counter + 1)] = _
    rw [h1]
    show _ = (List.range (st.counter + 1)).map (fun i => idGen (i + 1))
    rw [List.range_succ, List.map_append]
    simp
  · show 1 ≤ st.counter + 1
    omega

theorem idInv_pushNode (node : TreeNode) {st : PState} (h : IdInv st) :
    IdInv (pushNode node st) := by
  refine idInv_of_ghost ?_ ?_ h <;> (cases hstk : st.stack <;> simp [pushNode, hstk])

theorem idInv_closeNode (o : Option JSNum) {st : PState} (h : IdInv st) :
    IdInv (closeNode o st) :=
  idInv_of_ghost (closeNode_ghost o st).1 (closeNode_ghost o st).2.1 h

theorem idInv_mutateCurrent (g : TreeNode → TreeNode) {st : PState} (h : IdInv st) :
    IdInv (mutateCurrent g st) := by
  refine idInv_of_ghost ?_ ?_ h <;> (cases hstk : st.stack <;> simp [mutateCurrent, hstk])

theorem idInv_closeMismatches (target : Option Str) (ts : JSNum) :
    ∀ (fuel : ℕ) {st : PState}, IdInv st → IdInv (closeMismatches target ts fuel st) := by
  intro fuel
  induction fuel with
  | zero => intro st h; exact h
  | succ n ih =>
    intro st h
    cases hstk : st.stack with
    | nil => rw [closeMismatches_nil _ _ _ hstk]; exact h
    | cons f rest =>
      by_cases hne : some f.data.type ≠ target
      · rw [closeMismatches_go _ _ _ hstk hne]
        exact ih (idInv_closeNode _ h)
      · rw [closeMismatches_stop _ _ _ hstk (not_not.mp hne)]
        exact h

theorem idInv_handleNodeExit (ts : JSNum) (ty : Str) {st : PState} (h : IdInv st) :
    IdInv (handleNodeExit ts ty st) := by
  cases hstk : st.stack with
  | nil => simp only [handleNodeExit, hstk]; exact h
  | cons f rest =>
    rw [handleNodeExit_cons ts ty hstk]
    exact idInv_closeNode _ (idInv_closeMismatches _ _ _ h)

theorem idInv_unwindFatal (ts : JSNum) :
    ∀ (fuel : ℕ) {st : PState}, IdInv st → IdInv (unwindFatal ts fuel st) := by
  intro fuel
  induction fuel with
  | zero => intro st h; exact h
  | succ n ih =>
    intro st h
    cases hstk : st.stack with
    | nil => rw [unwindFatal_nil _ _ hstk]; exact h
    | cons f rest =>
      by_cases hcond : f.data.type ≠ strOf "CODE_UNIT" ∧ f.data.type ≠ strOf "ROOT"
      · rw [unwindFatal_go ts n hstk ((stopType_false_iff _).mpr hcond)]
        exact ih (idInv_closeNode _ h)
      · have hstop : stopType f.data.type = true := by
          cases hb : stopType f.data.type
          · exact absurd ((stopType_false_iff _).mp hb) hcond
          · rfl
        rw [unwindFatal_stop ts n hstk hstop]
        exact h

theorem idInv_handlePush {st : PState} {st' : PState} (hinv : IdInv st)
    (h : ∃ node, pushNode node (freshId st).2 = st') : IdInv st' := by
  obtain ⟨node, hn⟩ := h
  rw [← hn]
  exact idInv_pushNode _ (idInv_freshId hinv)

theorem idInv_handleCodeUnitStarted {ts ed st st'} (h : handleCodeUnitStarted ts ed st = some st')
    (hinv : IdInv st) : IdInv st' := by
  unfold handleCodeUnitStarted at h
  cases hstk : st.stack with
  | nil => rw [hstk] at h; cases h
  | cons f rest => rw [hstk] at h; cases h; exact idInv_handlePush hinv ⟨_, rfl⟩

theorem idInv_handleMethodEntry {ts ed st st'} (h : handleMethodEntry ts ed st = some st')
    (hinv : IdInv st) : IdInv st' := by
  unfold handleMethodEntry at h
  cases hstk : st.stack with
  | nil => rw [hstk] at h; cases h
  | cons f rest =>
    rw [hstk] at h
    cases hed : ed.head? with
    | none => rw [hed] at h; cases h
    | some e0 => rw [hed] at h; cases h; exact idInv_handlePush hinv ⟨_, rfl⟩

theorem idInv_handleSoqlExecuteBegin {ts ed st st'} (h : handleSoqlExecuteBegin ts ed st = some st')
    (hinv : IdInv st) : IdInv st' := by
  unfold handleSoqlExecuteBegin at h
  cases hstk : st.stack with
  | nil => rw [hstk] at h; cases h
  | cons f rest => rw [hstk] at h; cases h; exact idInv_handlePush hinv ⟨_, rfl⟩

theorem idInv_handleDmlBegin {ts ed st st'} (h : handleDmlBegin ts ed st = some st')
    (hinv : IdInv st) : IdInv st' := by
  unfold handleDmlBegin at h
  cases hstk : st.stack with
  | nil => rw [hstk] at h; cases h
  | cons f rest =>
    rw [hstk] at h
    dsimp only at h
    by_cases hlen3 : ed.length < 3
    · rw [if_pos hlen3] at h; cases h
    · rw [if_neg hlen3] at h
      cases hed : ed.head? with
      | none => rw [hed] at h; cases h
      | some e0 => rw [hed] at h; cases h; exact idInv_handlePush hinv ⟨_, rfl⟩

theorem idInv_handleExecutionStarted {ts st st'} (h : handleExecutionStarted ts st = some st')
    (hinv : IdInv st) : IdInv st' := by
  unfold handleExecutionStarted at h
  cases hstk : st.stack with
  | nil => rw [hstk] at h; cases h
  | cons f rest => rw [hstk] at h; cases h; exact idInv_handlePush hinv ⟨_, rfl⟩

theorem idInv_handleFlowStartInterviewBegin {ts ed st st'}
    (h : handleFlowStartInterviewBegin ts ed st = some st') (hinv : IdInv st) : IdInv st' := by
  unfold handleFlowStartInterviewBegin at h
  cases hstk : st.stack with
  | nil => rw [hstk] at h; cases h
  | cons f rest =>
    rw [hstk] at h
    cases h
    exact idInv_pushNode _ (idInv_freshId hinv)

theorem idInv_handleFlowElementBegin {ts ed st st'}
    (h : handleFlowElementBegin ts ed st = some st') (hinv : IdInv st) : IdInv st' := by
  unfold handleFlowElementBegin at h
  cases hstk : st.stack with
  | nil => rw [hstk] at h; cases h
  | cons f rest => rw [hstk] at h; cases h; exact idInv_handlePush hinv ⟨_, rfl⟩

theorem idInv_handleFlowStartInterviewsBegin {ts ed st st'}
    (h : handleFlowStartInterviewsBegin ts ed st = some st') (hinv : IdInv st) : IdInv st' := by
  unfold handleFlowStartInterviewsBegin at h
  cases hstk : st.stack with
  | nil => rw [hstk] at h; cases h
  | cons f rest => rw [hstk] at h; cases h; exact idInv_handlePush hinv ⟨_, rfl⟩

theorem idInv_handleFlowBulkElementStart {ts ed st st'}
    (h : handleFlowBulkElementStart ts ed st = some st') (hinv : IdInv st) : IdInv st' := by
  unfold handleFlowBulkElementStart at h
  cases hstk : st.stack with
  | nil => rw [hstk] at h; cases h
  | cons f rest => rw [hstk] at h; cases h; exact idInv_handlePush hinv ⟨_, rfl⟩

theorem idInv_handleCalloutRequest {ts ed st st'}
    (h : handleCalloutRequest ts ed st = some st') (hinv : IdInv st) : IdInv st' := by
  unfold handleCalloutRequest at h
  cases hstk : st.stack with
  | nil => rw [hstk] at h; cases h
  | cons f rest => rw [hstk] at h; cases h; exact idInv_handlePush hinv ⟨_, rfl⟩

theorem idInv_handleEnteringManagedPkg {ts ed st st'}
    (h : handleEnteringManagedPkg ts ed st = some st') (hinv : IdInv st) : IdInv st' := by
  unfold handleEnteringManagedPkg at h
  cases hstk : st.stack with
  | nil => rw [hstk] at h; cases h
  | cons f rest =>
    rw [hstk] at h
    dsimp only at h
    by_cases hm : f.data.type = strOf "MANAGED_PKG"
    · rw [if_pos hm] at h; cases h; exact hinv
    · rw [if_neg hm] at h; cases h; exact idInv_handlePush hinv ⟨_, rfl⟩

theorem idInv_handleLimitUsageForNs {ts ed st st'}
    (h : handleLimitUsageForNs ts ed st = some st') (hinv : IdInv st) : IdInv st' := by
  unfold handleLimitUsageForNs at h
  cases hed : ed.head? with
  | none => rw [hed] at h; cases h
  | some e0 =>
    rw [hed] at h
    cases hstk : st.stack with
    | nil => rw [hstk] at h; cases h
    | cons f rest =>
      rw [hstk] at h
      cases h
      exact idInv_closeNode _ (idInv_pushNode _ (idInv_freshId hinv))

theorem idInv_handleFatalError {ts ed st st'}
    (h : handleFatalError ts ed st = some st') (hinv : IdInv st) : IdInv st' := by
  unfold handleFatalError at h
  cases hstk : st.stack with
  | nil => rw [hstk] at h; cases h
  | cons f rest =>
    rw [hstk] at h
    cases hed : lastElem ed with
    | none => rw [hed] at h; cases h
    | some msg =>
      rw [hed] at h
      cases h
      exact idInv_unwindFatal _ _ (idInv_pushNode _ (idInv_freshId hinv))

theorem idInv_handleNamedCredentialRequest {ed st st'}
    (h : handleNamedCredentialRequest ed st = some st') (hinv : IdInv st) : IdInv st' := by
  unfold handleNamedCredentialRequest at h
  cases hstk : st.stack with
  | nil => rw [hstk] at h; cases h
  | cons f rest =>
    rw [hstk] at h
    dsimp only at h
    by_cases hc : f.data.type = strOf "CALLOUT"
    · rw [if_pos hc] at h; cases h; exact idInv_mutateCurrent _ hinv
    · rw [if_neg hc] at h; cases h; exact hinv

theorem idInv_handleNamedCredentialResponse {ed st st'}
    (h : handleNamedCredentialResponse ed st = some st') (hinv : IdInv st) : IdInv st' := by
  unfold handleNamedCredentialResponse at h
  cases hstk : st.stack with
  | nil => rw [hstk] at h; cases h
  | cons f rest =>
    rw [hstk] at h
    dsimp only at h
    by_cases hc : f.data.type = strOf "CALLOUT"
    · rw [if_pos hc] at h; cases h; exact idInv_mutateCurrent _ hinv
    · rw [if_neg hc] at h; cases h; exact hinv

theorem idInv_handleNamedCredentialResponseDetail {ed st st'}
    (h : handleNamedCredentialResponseDetail ed st = some st') (hinv : IdInv st) : IdInv st' := by
  unfold handleNamedCredentialResponseDetail at h
  cases hstk : st.stack with
  | nil => rw [hstk] at h; cases h
  | cons f rest =>
    rw [hstk] at h
    dsimp only at h
    by_cases hc : f.data.type = strOf "CALLOUT"
    · rw [if_pos hc] at h; cases h; exact idInv_mutateCurrent _ hinv
    · rw [if_neg hc] at h; cases h; exact hinv

theorem idInv_handleSOQLExit {ts ed st} (hinv : IdInv st) : IdInv (handleSOQLExit ts ed st) := by
  unfold handleSOQLExit
  cases hstk : st.stack with
  | nil => exact idInv_handleNodeExit _ _ hinv
  | cons f rest =>
    dsimp only
    by_cases hc : f.data.type = strOf "SOQL"
    · rw [if_pos hc]
      exact idInv_handleNodeExit _ _ (idInv_mutateCurrent _ hinv)
    · rw [if_neg hc]
      exact idInv_handleNodeExit _ _ hinv

theorem idInv_handleCalloutResponse {ts ed st} (hinv : IdInv st) :
    IdInv (handleCalloutResponse ts ed st) := by
  unfold handleCalloutResponse
  cases hstk : st.stack with
  | nil => exact idInv_handleNodeExit _ _ hinv
  | cons f rest =>
    dsimp only
    by_cases hc : f.data.type = strOf "CALLOUT"
    · rw [if_pos hc]
      exact idInv_handleNodeExit _ _ (idInv_mutateCurrent _ hinv)
    · rw [if_neg hc]
      exact idInv_handleNodeExit _ _ hinv

/-- Invariant preservation through the whole per-event dispatcher. -/
theorem idInv_dispatchEvent {ts : JSNum} {ty : Str} {ed : List Str} {st st' : PState}
    (h : dispatchEvent ts ty ed st = some st') (hinv : IdInv st) : IdInv st' := by
  unfold dispatchEvent at h
  by_cases c1 : ty = strOf "USER_INFO"
  case pos => rw [if_pos c1] at h; cases h; exact idInv_of_ghost rfl rfl hinv
  rw [if_neg c1] at h
  by_cases c2 : ty = strOf "CODE_UNIT_STARTED"
  case pos => rw [if_pos c2] at h; exact idInv_handleCodeUnitStarted h hinv
  rw [if_neg c2] at h
  by_cases c3 : ty = strOf "LIMIT_USAGE_FOR_NS"
  case pos => rw [if_pos c3] at h; exact idInv_handleLimitUsageForNs h hinv
  rw [if_neg c3] at h
  by_cases c4 : ty = strOf "CODE_UNIT_FINISHED"
  case pos => rw [if_pos c4] at h; cases h; exact idInv_handleNodeExit _ _ hinv
  rw [if_neg c4] at h
  by_cases c5 : ty = strOf "METHOD_ENTRY"
  case pos => rw [if_pos c5] at h; exact idInv_handleMethodEntry h hinv
  rw [if_neg c5] at h
  by_cases c6 : ty = strOf "METHOD_EXIT"
  case pos => rw [if_pos c6] at h; cases h; exact idInv_handleNodeExit _ _ hinv
  rw [if_neg c6] at h
  by_cases c7 : ty = strOf "SOQL_EXECUTE_BEGIN"
  case pos => rw [if_pos c7] at h; exact idInv_handleSoqlExecuteBegin h hinv
  rw [if_neg c7] at h
  by_cases c8 : ty = strOf "SOQL_EXECUTE_END"
  case pos => rw [if_pos c8] at h; cases h; exact idInv_handleSOQLExit hinv
  rw [if_neg c8] at h
  by_cases c9 : ty = strOf "DML_BEGIN"
  case pos => rw [if_pos c9] at h; exact idInv_handleDmlBegin h hinv
  rw [if_neg c9] at h
  by_cases c10 : ty = strOf "DML_END"
  case pos => rw [if_pos c10] at h; cases h; exact idInv_handleNodeExit _ _ hinv
  rw [if_neg c10] at h
  by_cases c11 : ty = strOf "EXECUTION_STARTED"
  case pos => rw [if_pos c11] at h; exact idInv_handleExecutionStarted h hinv
  rw [if_neg c11] at h
  by_cases c12 : ty = strOf "EXECUTION_FINISHED"
  case pos => rw [if_pos c12] at h; cases h; exact idInv_handleNodeExit _ _ hinv
  rw [if_neg c12] at h
  by_cases c13 : ty = strOf "FLOW_START_INTERVIEW_BEGIN"
  case pos => rw [if_pos c13] at h; exact idInv_handleFlowStartInterviewBegin h hinv
  rw [if_neg c13] at h
  by_cases c14 : ty = strOf "FLOW_START_INTERVIEW_END"
  case pos => rw [if_pos c14] at h; cases h; exact idInv_handleNodeExit _ _ hinv
  rw [if_neg c14] at h
  by_cases c15 : ty = strOf "FLOW_ELEMENT_BEGIN"
  case pos => rw [if_pos c15] at h; exact idInv_handleFlowElementBegin h hinv
  rw [if_neg c15] at h
  by_cases c16 : ty = strOf "FLOW_ELEMENT_END"
  case pos => rw [if_pos c16] at h; cases h; exact idInv_handleNodeExit _ _ hinv
  rw [if_neg c16] at h
  by_cases c17 : ty = strOf "FATAL_ERROR"
  case pos => rw [if_pos c17] at h; exact idInv_handleFatalError h hinv
  rw [if_neg c17] at h
  by_cases c18 : ty = strOf "ENTERING_MANAGED_PKG"
  case pos => rw [if_pos c18] at h; exact idInv_handleEnteringManagedPkg h hinv
  rw [if_neg c18] at h
  by_cases c19 : ty = strOf "CALLOUT_REQUEST"
  case pos => rw [if_pos c19] at h; exact idInv_handleCalloutRequest h hinv
  rw [if_neg c19] at h
  by_cases c20 : ty = strOf "CALLOUT_RESPONSE"
  case pos => rw [if_pos c20] at h; cases h; exact idInv_handleCalloutResponse hinv
  rw [if_neg c20] at h
  by_cases c21 : ty = strOf "NAMED_CREDENTIAL_REQUEST"
  case pos => rw [if_pos c21] at h; exact idInv_handleNamedCredentialRequest h hinv
  rw [if_neg c21] at h
  by_cases c22 : ty = strOf "NAMED_CREDENTIAL_RESPONSE"
  case pos => rw [if_pos c22] at h; exact idInv_handleNamedCredentialResponse h hinv
  rw [if_neg c22] at h
  by_cases c23 : ty = strOf "NAMED_CREDENTIAL_RESPONSE_DETAIL"
  case pos => rw [if_pos c23] at h; exact idInv_handleNamedCredentialResponseDetail h hinv
  rw [if_neg c23] at h
  by_cases c24 : ty = strOf "FLOW_BULK_ELEMENT_BEGIN"
  case pos => rw [if_pos c24] at h; exact idInv_handleFlowBulkElementStart h hinv
  rw [if_neg c24] at h
  by_cases c25 : ty = strOf "FLOW_BULK_ELEMENT_END"
  case pos => rw [if_pos c25] at h; cases h; exact idInv_handleNodeExit _ _ hinv
  rw [if_neg c25] at h
  by_cases c26 : ty = strOf "FLOW_START_INTERVIEWS_BEGIN"
  case pos => rw [if_pos c26] at h; exact idInv_handleFlowStartInterviewsBegin h hinv
  rw [if_neg c26] at h
  by_cases c27 : ty = strOf "FLOW_START_INTERVIEWS_END"
  case pos => rw [if_pos c27] at h; cases h; exact idInv_handleNodeExit _ _ hinv
  rw [if_neg c27] at h
  cases h
  exact hinv

theorem idInv_parseLine {line : Str} {st st' : PState}
    (h : parseLine line st = some st') (hinv : IdInv st) : IdInv st' := by
  unfold parseLine at h
  cases hsplit : splitOnChar '|' line with
  | nil => rw [hsplit] at h; cases h; exact hinv
  | cons p0 rest =>
    cases rest with
    | nil => rw [hsplit] at h; cases h; exact hinv
    | cons ty ed =>
      rw [hsplit] at h
      dsimp only at h
      by_cases hm : managedPkgMismatch ty ed st
      · rw [if_pos hm] at h
        exact idInv_dispatchEvent h (idInv_closeNode _ hinv)
      · rw [if_neg hm] at h
        exact idInv_dispatchEvent h hinv

theorem idInv_handleDebugLevels (line : Str) {st : PState} (hinv : IdInv st) :
    IdInv (handleDebugLevels line st) := by
  unfold handleDebugLevels
  by_cases hp : (splitOnChar ' ' line).length < 2
  · rw [if_pos hp]; exact hinv
  · rw [if_neg hp]; exact idInv_of_ghost rfl rfl hinv

theorem idInv_processChunks :
    ∀ (chunks : List Str) (st st' : PState),
      chunks.foldlM (fun st chunk => parseLine (removeTrailingNewlines chunk) st) st = some st' →
      IdInv st → IdInv st' := by
  intro chunks
  induction chunks with
  | nil =>
    intro st st' h hinv
    simp [List.foldlM] at h
    rw [← h]
    exact hinv
  | cons c cs ih =>
    intro st st' h hinv
    rw [List.foldlM_cons] at h
    cases hstep : parseLine (removeTrailingNewlines c) st with
    | none => rw [hstep] at h; cases h
    | some st1 =>
      rw [hstep] at h
      exact ih st1 st' h (idInv_parseLine hstep hinv)

/-- C6 counterexample: the ROOT node of a parse gets the first generated
id, which is `"evt_001"` (prefix `evt`, zero-padded to width 3) — not the
bare five-digit `"00001"` the claim describes. -/
theorem c6_root_id_is_evt_001_not_00001 :
    ∃ out, parse (strOf "") (strOf "stdin") = some out ∧
      out.tree.map (fun t => (treeData t).id) = some (strOf "evt_001") ∧
      strOf "evt_001" ≠ strOf "00001" :=
  ⟨_, rfl, rfl, by decide⟩

/-- C6 amended: during one parse the generated ids are exactly
`idGen 1 .. idGen N` (N = number of nodes created) in creation order —
`"evt_"` followed by the counter zero-padded to width 3 — with no gaps and,
since `idGen` is injective, no repeats; the first id (`"evt_001"`) is taken
by the synthetic ROOT node created by `reset()`; and a parse always starts
from the reset state, so a fixed event sequence yields the same ids. -/
theorem c6_amended_sequential_ids :
    (∀ (log : Str) (st' : PState), parseState log = some st' →
      st'.createdIds = (List.range st'.counter).map (fun i => idGen (i + 1)) ∧
      1 ≤ st'.counter ∧
      st'.createdIds.head? = some (idGen 1)) ∧
    initState.stack.map (fun fr => (fr.data.type, fr.data.id)) = [(strOf "ROOT", idGen 1)] ∧
    idGen 1 = strOf "evt_001" ∧
    (∀ m n : ℕ, idGen m = idGen n → m = n) := by
  refine ⟨?_, rfl, rfl, idGen_inj⟩
  intro log st' h
  unfold parseState at h
  have hinv : IdInv st' :=
    idInv_processChunks _ _ _ h (idInv_handleDebugLevels _ idInv_initState)
  obtain ⟨h1, h2⟩ := hinv
  refine ⟨h1, h2, ?_⟩
  cases hc : st'.counter with
  | zero => omega
  | succ k =>
    rw [h1, hc, List.range_succ_eq_map]
    rfl

/-- C6 witness for the amended theorem: the reset state itself (reached by
parsing the empty log) satisfies the id-trace characterisation, and
`idGen` injectivity applied at a concrete pair. -/
theorem c6_amended_witness :
    initState.createdIds = (List.range initState.counter).map (fun i => idGen (i + 1)) ∧
    initState.createdIds.head? = some (idGen 1) ∧
    (7 : ℕ) = 7 :=
  ⟨(c6_amended_sequential_ids.1 (strOf "") initState rfl).1,
   (c6_amended_sequential_ids.1 (strOf "") initState rfl).2.2,
   c6_amended_sequential_ids.2.2.2 7 7 rfl⟩

/-! ## Claim C5 — stack balance for well-formed begin/end input

### String-level groundwork -/

theorem splitOnChar_no_sep (c : Char) : ∀ s : Str, c ∉ s → splitOnChar c s = [s]
  | [], _ => rfl
  | x :: xs, h => by
    have hx : ¬(x = c) := fun e => h (e ▸ List.mem_cons_self x xs)
    have hxs : c ∉ xs := fun m => h (List.mem_cons_of_mem _ m)
    simp [splitOnChar, splitOnChar_no_sep c xs hxs, hx]

theorem splitOnChar_append_sep (c : Char) :
    ∀ a t : Str, c ∉ a → splitOnChar c (a ++ c :: t) = a :: splitOnChar c t
  | [], t, _ => by simp [splitOnChar]
  | x :: a', t, h => by
    have hx : ¬(x = c) := fun e => h (e ▸ List.mem_cons_self x a')
    have ha' : c ∉ a' := fun m => h (List.mem_cons_of_mem _ m)
    have ih := splitOnChar_append_sep c a' t ha'
    show (match splitOnChar c (a' ++ c :: t), decide (x = c) with
          | r, true => [] :: r
          | [], false => [[x]]
          | y :: ys, false => (x :: y) :: ys) = (x :: a') :: splitOnChar c t
    rw [ih]
    simp [hx]

theorem intercalate_cons₂ (sep : Str) (x y : Str) (zs : List Str) :
    List.intercalate sep (x :: y :: zs) = x ++ sep ++ List.intercalate sep (y :: zs) := by
  simp [List.intercalate, List.intersperse]

theorem intercalate_single (sep : Str) (x : Str) : List.intercalate sep [x] = x := by
  simp [List.intercalate]

theorem splitOnChar_intercalate (c : Char) :
    ∀ parts : List Str, parts ≠ [] → (∀ p ∈ parts, c ∉ p) →
      splitOnChar c (List.intercalate [c] parts) = parts
  | [], h, _ => absurd rfl h
  | [p], _, hall => by
    rw [intercalate_single]
    exact splitOnChar_no_sep c p (hall p (List.mem_singleton_self p))
  | p :: q :: ps, _, hall => by
    rw [intercalate_cons₂]
    have hp : c ∉ p := hall p (List.mem_cons_self _ _)
    have hrest : ∀ r ∈ q :: ps, c ∉ r := fun r hr => hall r (List.mem_cons_of_mem _ hr)
    have ihq := splitOnChar_intercalate c (q :: ps) (by simp) hrest
    rw [List.append_assoc, List.singleton_append, splitOnChar_append_sep c p _ hp, ihq]

theorem jsIndexOfChar_cons_ne {x c : Char} (xs : Str) (hx : x ≠ c) :
    jsIndexOfChar (x :: xs) c =
      if jsIndexOfChar xs c = -1 then -1 else jsIndexOfChar xs c + 1 := by
  simp only [jsIndexOfChar, hx, if_false]
  split
  · rename_i heq
    rw [heq, if_pos rfl]
  · rename_i hne
    rw [if_neg hne]

theorem jsIndexOfChar_append_found (c : Char) :
    ∀ a b : Str, jsIndexOfChar a c ≠ -1 → jsIndexOfChar (a ++ b) c = jsIndexOfChar a c
  | [], _, h => absurd rfl h
  | x :: a', b, h => by
    by_cases hx : x = c
    · simp [jsIndexOfChar, hx]
    · rw [jsIndexOfChar_cons_ne a' hx] at h
      rw [List.cons_append, jsIndexOfChar_cons_ne (a' ++ b) hx,
          jsIndexOfChar_cons_ne a' hx]
      by_cases ha' : jsIndexOfChar a' c = -1
      · rw [if_pos ha'] at h
        exact absurd rfl h
      · rw [jsIndexOfChar_append_found c a' b ha', if_neg ha']

theorem jsIndexOfChar_append_right_none (c : Char) :
    ∀ a b : Str, c ∉ a → jsIndexOfChar b c = -1 → jsIndexOfChar (a ++ b) c = -1
  | [], b, _, hb => by simpa using hb
  | x :: a', b, h, hb => by
    have hx : x ≠ c := fun e => h (e ▸ List.mem_cons_self x a')
    have ha' : c ∉ a' := fun m => h (List.mem_cons_of_mem _ m)
    rw [List.cons_append, jsIndexOfChar_cons_ne (a' ++ b) hx,
        jsIndexOfChar_append_right_none c a' b ha' hb, if_pos rfl]

theorem jsIndexOfChar_append_right_found (c : Char) :
    ∀ (a b : Str) (i : ℤ), c ∉ a → jsIndexOfChar b c = i → 0 ≤ i →
      jsIndexOfChar (a ++ b) c = (a.length : ℤ) + i
  | [], b, i, _, hb, _ => by simpa using hb
  | x :: a', b, i, h, hb, hi => by
    have hx : x ≠ c := fun e => h (e ▸ List.mem_cons_self x a')
    have ha' : c ∉ a' := fun m => h (List.mem_cons_of_mem _ m)
    have ih := jsIndexOfChar_append_right_found c a' b i ha' hb hi
    rw [List.cons_append, jsIndexOfChar_cons_ne (a' ++ b) hx, ih,
        if_neg (by omega)]
    simp
    omega

/-! ### Digit strings and `parseFloat` on them -/

theorem digit_char_ne {c : Char} (h : isDigitChar c = true) {x : Char}
    (hx : isDigitChar x = false) : c ≠ x := by
  intro e
  rw [e, hx] at h
  cases h

theorem not_space_of_digit : ∀ c : Char, isDigitChar c = true → isJsSpace c = false := by
  intro c h
  cases hs : isJsSpace c
  · rfl
  · exfalso
    simp only [isJsSpace, Bool.or_eq_true, decide_eq_true_eq] at hs
    rcases hs with ((((((rfl | rfl) | rfl) | rfl) | rfl) | rfl) | rfl) | rfl <;>
      exact absurd h (by decide)

theorem takeWhile_all {p : Char → Bool} :
    ∀ s : Str, (∀ c ∈ s, p c = true) → s.takeWhile p = s
  | [], _ => rfl
  | x :: xs, h => by
    rw [List.takeWhile_cons, h x (List.mem_cons_self _ _)]
    simp only [if_true]
    rw [takeWhile_all xs (fun c hc => h c (List.mem_cons_of_mem _ hc))]

theorem dropWhile_all {p : Char → Bool} :
    ∀ s : Str, (∀ c ∈ s, p c = true) → s.dropWhile p = []
  | [], _ => rfl
  | x :: xs, h => by
    rw [List.dropWhile_cons, h x (List.mem_cons_self _ _)]
    simp only [if_true]
    exact dropWhile_all xs (fun c hc => h c (List.mem_cons_of_mem _ hc))

theorem dropWhile_none {p : Char → Bool} :
    ∀ s : Str, (∀ c ∈ s, p c = false) → s.dropWhile p = s
  | [], _ => rfl
  | x :: xs, h => by
    rw [List.dropWhile_cons, h x (List.mem_cons_self _ _)]
    simp

theorem jsTrim_no_space (s : Str) (h : ∀ c ∈ s, isJsSpace c = false) : jsTrim s = s := by
  unfold jsTrim
  rw [dropWhile_none s h, dropWhile_none s.reverse (fun c hc => h c (List.mem_reverse.mp hc)),
      List.reverse_reverse]

theorem stripSign_digit {d : Char} (ds : Str) (hd : isDigitChar d = true) :
    stripSign (d :: ds) = (false, d :: ds) := by
  unfold stripSign
  split
  · rename_i heq
    cases heq
    exact absurd hd (by decide)
  · rename_i heq
    cases heq
    exact absurd hd (by decide)
  · rfl

theorem infinity_not_prefix_of_digit {d : Char} (ds : Str) (hd : isDigitChar d = true) :
    (strOf "Infinity").isPrefixOf (d :: ds) = false := by
  show ('I' :: strOf "nfinity").isPrefixOf (d :: ds) = false
  have hne : d ≠ 'I' := digit_char_ne hd (by decide)
  have : ('I' == d) = false := beq_eq_false_iff_ne.mpr (fun e => hne e.symm)
  rw [List.isPrefixOf_cons₂, this]
  rfl

theorem jsParseFloat_digits (s : Str) (hne : s ≠ []) (hd : ∀ c ∈ s, isDigitChar c = true) :
    jsParseFloat s = JSNum.val (digitsVal s) := by
  obtain ⟨d, ds, rfl⟩ := List.exists_cons_of_ne_nil hne
  have hd0 : isDigitChar d = true := hd d (List.mem_cons_self _ _)
  have hspace : (d :: ds).dropWhile isJsSpace = d :: ds :=
    dropWhile_none _ (fun c hc => not_space_of_digit c (hd c hc))
  unfold jsParseFloat
  rw [hspace]
  dsimp only
  rw [stripSign_digit ds hd0]
  dsimp only
  rw [infinity_not_prefix_of_digit ds hd0]
  simp only [Bool.false_eq_true, if_false]
  unfold takeDigits
  rw [takeWhile_all _ hd, dropWhile_all _ hd]
  dsimp only
  rw [if_neg (by simp)]
  show JSNum.val _ = JSNum.val _
  congr 1
  unfold decimalValue parseExponent
  norm_num [digitsVal]

theorem isDigitChar_digitChar : ∀ d, d < 10 → isDigitChar (Nat.digitChar d) = true := by decide

theorem natToStrAux_ne_nil (fuel n : ℕ) (h : n < fuel) : natToStrAux fuel n ≠ [] := by
  cases fuel with
  | zero => omega
  | succ fuel =>
    by_cases h10 : n < 10
    · simp [natToStrAux, h10]
    · simp [natToStrAux, h10]

theorem natToStr_ne_nil (n : ℕ) : natToStr n ≠ [] :=
  natToStrAux_ne_nil (n + 1) n (Nat.lt_succ_self n)

theorem natToStrAux_digits : ∀ (fuel n : ℕ), ∀ c ∈ natToStrAux fuel n, isDigitChar c = true := by
  intro fuel
  induction fuel with
  | zero => intro n c hc; simp [natToStrAux] at hc
  | succ fuel ih =>
    intro n c hc
    by_cases h10 : n < 10
    · simp [natToStrAux, h10] at hc
      rw [hc]
      exact isDigitChar_digitChar n h10
    · simp only [natToStrAux, h10, if_false, List.mem_append, List.mem_singleton] at hc
      rcases hc with hc | hc
      · exact ih _ c hc
      · rw [hc]
        exact isDigitChar_digitChar _ (Nat.mod_lt _ (by omega))

theorem natToStr_digits (n : ℕ) : ∀ c ∈ natToStr n, isDigitChar c = true :=
  natToStrAux_digits (n + 1) n

/-- The rendered timing field of a well-formed event line. -/
def timeField (ts : ℕ) : Str := strOf "00:00:00.0 (" ++ natToStr ts ++ [')']

theorem extractTimestamp_timeField (n : ℕ) : extractTimestamp (timeField n) = JSNum.val n := by
  have hdig := natToStr_digits n
  have hlen1 : 1 ≤ (natToStr n).length :=
    List.length_pos.mpr (natToStr_ne_nil n)
  have hopen : jsIndexOfChar (timeField n) '(' = 11 := by
    unfold timeField
    rw [List.append_assoc]
    rw [jsIndexOfChar_append_found '(' (strOf "00:00:00.0 (") _ (by decide)]
    decide
  have hcloseDigits : jsIndexOfChar (natToStr n ++ [')']) ')' =
      ((natToStr n).length : ℤ) + 0 := by
    apply jsIndexOfChar_append_right_found ')' (natToStr n) [')'] 0
    · intro hmem
      have := hdig ')' hmem
      exact absurd this (by decide)
    · rfl
    · omega
  have hclose : jsIndexOfChar (timeField n) ')' = 12 + ((natToStr n).length : ℤ) := by
    unfold timeField
    rw [List.append_assoc]
    rw [jsIndexOfChar_append_right_found ')' (strOf "00:00:00.0 (") _
      (((natToStr n).length : ℤ) + 0) (by decide) hcloseDigits (by omega)]
    simp [strOf]
  have hsub : jsSubstring (timeField n) 12 (12 + ((natToStr n).length : ℤ)) = natToStr n := by
    unfold jsSubstring timeField
    have hlentf : ((strOf "00:00:00.0 (" ++ natToStr n ++ [')']).length : ℤ) =
        13 + ((natToStr n).length : ℤ) := by
      simp [strOf]
      omega
    rw [hlentf]
    dsimp only
    have h1 : min (max (12 : ℤ) 0) (13 + ((natToStr n).length : ℤ)) = 12 := by omega
    have h2 : min (max (12 + ((natToStr n).length : ℤ)) 0) (13 + ((natToStr n).length : ℤ)) =
        12 + ((natToStr n).length : ℤ) := by omega
    rw [h1, h2]
    have h3 : min (12 : ℤ) (12 + ((natToStr n).length : ℤ)) = 12 := by omega
    have h4 : max (12 : ℤ) (12 + ((natToStr n).length : ℤ)) =
        12 + ((natToStr n).length : ℤ) := by omega
    rw [h3, h4]
    have h5 : ((12 : ℤ) + ((natToStr n).length : ℤ)).toNat = 12 + (natToStr n).length := by
      omega
    have h6 : ((12 : ℤ)).toNat = 12 := rfl
    rw [h5, h6]
    have htake : (strOf "00:00:00.0 (" ++ natToStr n ++ [')']).take (12 + (natToStr n).length) =
        strOf "00:00:00.0 (" ++ natToStr n := by
      rw [List.take_append_eq_append_take]
      have : (strOf "00:00:00.0 (" ++ natToStr n).length = 12 + (natToStr n).length := by
        simp [strOf]
        omega
      rw [List.take_of_length_le (by rw [this]), this]
      simp
    rw [htake]
    have : (strOf "00:00:00.0 (").length = 12 := rfl
    rw [← this, List.drop_left]
  unfold extractTimestamp
  rw [hopen, hclose]
  rw [if_neg (by omega)]
  have h12 : (11 : ℤ) + 1 = 12 := rfl
  rw [h12, hsub, jsTrim_no_space _ (fun c hc => not_space_of_digit c (hdig c hc)),
      jsParseFloat_digits _ (natToStr_ne_nil n) hdig, digitsVal_natToStr]

/-! ### Well-formed, properly nested begin/end event sequences -/

/-- The ten begin/end pair kinds of the event table. -/
inductive BE : Type where
  | codeUnit | method | soql | dml | execution
  | flowInterview | flowElement | flowBulk | flowInterviews | callout
deriving DecidableEq

def beginTag : BE → Str
  | .codeUnit => strOf "CODE_UNIT_STARTED"
  | .method => strOf "METHOD_ENTRY"
  | .soql => strOf "SOQL_EXECUTE_BEGIN"
  | .dml => strOf "DML_BEGIN"
  | .execution => strOf "EXECUTION_STARTED"
  | .flowInterview => strOf "FLOW_START_INTERVIEW_BEGIN"
  | .flowElement => strOf "FLOW_ELEMENT_BEGIN"
  | .flowBulk => strOf "FLOW_BULK_ELEMENT_BEGIN"
  | .flowInterviews => strOf "FLOW_START_INTERVIEWS_BEGIN"
  | .callout => strOf "CALLOUT_REQUEST"

def endTag : BE → Str
  | .codeUnit => strOf "CODE_UNIT_FINISHED"
  | .method => strOf "METHOD_EXIT"
  | .soql => strOf "SOQL_EXECUTE_END"
  | .dml => strOf "DML_END"
  | .execution => strOf "EXECUTION_FINISHED"
  | .flowInterview => strOf "FLOW_START_INTERVIEW_END"
  | .flowElement => strOf "FLOW_ELEMENT_END"
  | .flowBulk => strOf "FLOW_BULK_ELEMENT_END"
  | .flowInterviews => strOf "FLOW_START_INTERVIEWS_END"
  | .callout => strOf "CALLOUT_RESPONSE"

/-- The node variant each begin kind opens (= the variant its end closes,
per `mapTypeByTypeExit`). -/
def beType : BE → Str
  | .codeUnit => strOf "CODE_UNIT"
  | .method => strOf "METHOD"
  | .soql => strOf "SOQL"
  | .dml => strOf "DML"
  | .execution => strOf "EXECUTION"
  | .flowInterview => strOf "FLOW_START_INTERVIEW"
  | .flowElement => strOf "FLOW_ELEMENT"
  | .flowBulk => strOf "FLOW_BULK_ELEMENT"
  | .flowInterviews => strOf "FLOW"
  | .callout => strOf "CALLOUT"

/-- One begin or end event of the log body. -/
structure Ev where
  kind : BE
  isEnd : Bool
  ts : ℕ
  payload : List Str

def evTag (e : Ev) : Str := if e.isEnd then endTag e.kind else beginTag e.kind

/-- The rendered event-record line. -/
def renderLine (e : Ev) : Str :=
  List.intercalate ['|'] (timeField e.ts :: evTag e :: e.payload)

/-- Well-formedness of one event: a positive timestamp, payload fields free
of field separators and line terminators, and the payload shapes required
by the METHOD_ENTRY / DML_BEGIN handlers. -/
def WfEv (e : Ev) : Prop :=
  0 < e.ts ∧
  (∀ p ∈ e.payload, ∀ c ∈ p, c ≠ '|' ∧ isNlAnchor c = false) ∧
  (e.kind = .method → e.isEnd = false → e.payload ≠ []) ∧
  (e.kind = .dml → e.isEnd = false → 3 ≤ e.payload.length)

/-- Properly nested begin/end pairing. -/
inductive BalancedEv : List Ev → Prop where
  | nil : BalancedEv []
  | node (b : BE) (ts1 ts2 : ℕ) (p1 p2 : List Str) (inner rest : List Ev) :
      BalancedEv inner → BalancedEv rest →
      BalancedEv (⟨b, false, ts1, p1⟩ :: inner ++ ⟨b, true, ts2, p2⟩ :: rest)

theorem mapTypeByTypeExit_endTag (b : BE) : mapTypeByTypeExit (endTag b) = some (beType b) := by
  cases b <;> rfl

theorem beType_ne_managed (b : BE) : beType b ≠ strOf "MANAGED_PKG" := by
  cases b <;> decide

theorem beginTag_no_pipe (b : BE) : ∀ c ∈ beginTag b, ¬(c = '|') := by
  cases b <;> decide

theorem endTag_no_pipe (b : BE) : ∀ c ∈ endTag b, ¬(c = '|') := by
  cases b <;> decide

theorem timeField_mem {c : Char} {n : ℕ} (h : c ∈ timeField n) :
    c ∈ strOf "00:00:00.0 ()" ∨ isDigitChar c = true := by
  unfold timeField at h
  rw [List.append_assoc] at h
  rcases List.mem_append.mp h with h1 | h1
  · left
    fin_cases h1 <;> decide
  · rcases List.mem_append.mp h1 with h2 | h2
    · exact Or.inr (natToStr_digits n c h2)
    · left
      fin_cases h2
      decide

theorem timeField_no_pipe {n : ℕ} : ¬('|' ∈ timeField n) := by
  intro hc
  rcases timeField_mem hc with h | h
  · exact absurd h (by decide)
  · exact absurd h (by decide)

theorem timeField_no_anchor {n : ℕ} : ∀ c ∈ timeField n, isNlAnchor c = false := by
  intro c hc
  rcases timeField_mem hc with h | h
  · have hall : ∀ x ∈ strOf "00:00:00.0 ()", isNlAnchor x = false := by decide
    exact hall c h
  · cases ha : isNlAnchor c
    · rfl
    · exfalso
      have hd : ((c = '\n' ∨ c = '\x0d') ∨ c = Char.ofNat 8232) ∨ c = Char.ofNat 8233 := by
        simpa [isNlAnchor] using ha
      rcases hd with ((rfl | rfl) | rfl) | rfl <;> exact absurd h (by decide)

theorem evTag_no_pipe (e : Ev) : ¬('|' ∈ evTag e) := by
  unfold evTag
  cases e.isEnd
  · simp only [if_neg Bool.false_ne_true]
    intro hc
    exact beginTag_no_pipe e.kind '|' hc rfl
  · simp only [if_pos rfl]
    intro hc
    exact endTag_no_pipe e.kind '|' hc rfl

theorem renderLine_split (e : Ev)
    (hwfp : ∀ p ∈ e.payload, ∀ c ∈ p, c ≠ '|' ∧ isNlAnchor c = false) :
    splitOnChar '|' (renderLine e) = timeField e.ts :: evTag e :: e.payload := by
  apply splitOnChar_intercalate
  · simp
  · intro p hp
    rcases List.mem_cons.mp hp with rfl | hp1
    · exact timeField_no_pipe
    · rcases List.mem_cons.mp hp1 with rfl | hp2
      · exact evTag_no_pipe e
      · intro hmem
        exact absurd rfl ((hwfp p hp2 '|' hmem).1)

theorem evTag_begin (b : BE) (ts : ℕ) (p : List Str) :
    evTag ⟨b, false, ts, p⟩ = beginTag b := rfl

theorem evTag_end (b : BE) (ts : ℕ) (p : List Str) :
    evTag ⟨b, true, ts, p⟩ = endTag b := rfl

/-- A rendered event line parses as a dispatch of its tag, payload and
timestamp: no short-line skip, and no implicit MANAGED_PKG close when the
current node is not a MANAGED_PKG. -/
theorem parseLine_render (e : Ev) (st : PState) {f : Frame} {rest : List Frame}
    (hstack : st.stack = f :: rest) (hnm : f.data.type ≠ strOf "MANAGED_PKG")
    (hwfp : ∀ p ∈ e.payload, ∀ c ∈ p, c ≠ '|' ∧ isNlAnchor c = false) :
    parseLine (renderLine e) st =
      dispatchEvent (JSNum.val e.ts) (evTag e) e.payload st := by
  have hmm : ¬ managedPkgMismatch (evTag e) e.payload st := by
    unfold managedPkgMismatch
    rw [hstack]
    dsimp only [List.head?]
    rintro ⟨h1, -⟩
    exact hnm h1
  unfold parseLine
  rw [renderLine_split e hwfp]
  dsimp only
  rw [extractTimestamp_timeField, if_neg hmm]

theorem pushNode_stack {st : PState} {f : Frame} {rest : List Frame} (node : TreeNode)
    (h : st.stack = f :: rest) :
    (pushNode node st).stack = (⟨node, []⟩ : Frame) :: f :: rest := by
  cases st with
  | mk stk dr c ci u ll =>
    simp only at h
    subst h
    rfl

theorem valNat_truthy (n : ℕ) (h : 0 < n) : (JSNum.val n).truthy = true := by
  simp only [JSNum.truthy, bne_iff_ne, ne_eq]
  exact_mod_cast h.ne'

/-- Every begin event, dispatched on a stack whose top is not a MANAGED_PKG,
pushes exactly one fresh open node of the matching variant; the parent
frame keeps its accumulated children and its type/timeEnd/durationMs. -/
theorem begin_step (b : BE) (ts : ℕ) (payload : List Str) (st : PState)
    {f : Frame} {rest : List Frame}
    (hstack : st.stack = f :: rest) (hnm : f.data.type ≠ strOf "MANAGED_PKG")
    (hwfp : ∀ p ∈ payload, ∀ c ∈ p, c ≠ '|' ∧ isNlAnchor c = false)
    (hm : b = BE.method → payload ≠ [])
    (hd : b = BE.dml → 3 ≤ payload.length) :
    ∃ (st2 : PState) (nd fd : TreeNode),
      parseLine (renderLine ⟨b, false, ts, payload⟩) st = some st2 ∧
      st2.stack = (⟨nd, []⟩ : Frame) :: (⟨fd, f.kids⟩ : Frame) :: rest ∧
      nd.type = beType b ∧ nd.timeEnd = none ∧ nd.durationMs = none ∧
      fd.type = f.data.type ∧ fd.timeEnd = f.data.timeEnd ∧ fd.durationMs = f.data.durationMs := by
  cases st with
  | mk stk dr c ci u ll =>
    simp only at hstack
    subst hstack
    have hpl := parseLine_render ⟨b, false, ts, payload⟩
      ⟨f :: rest, dr, c, ci, u, ll⟩ rfl hnm hwfp
    cases b with
    | codeUnit => exact ⟨_, _, f.data, hpl, rfl, rfl, rfl, rfl, rfl, rfl, rfl⟩
    | method =>
      obtain ⟨e0, es, rfl⟩ := List.exists_cons_of_ne_nil (hm rfl)
      exact ⟨_, _, f.data, hpl, rfl, rfl, rfl, rfl, rfl, rfl, rfl⟩
    | soql => exact ⟨_, _, f.data, hpl, rfl, rfl, rfl, rfl, rfl, rfl, rfl⟩
    | dml =>
      have h3 := hd rfl
      have hne : payload ≠ [] := by
        intro hnil
        rw [hnil] at h3
        simp at h3
      obtain ⟨e0, es, rfl⟩ := List.exists_cons_of_ne_nil hne
      have hlt : ¬((e0 :: es).length < 3) := by omega
      have hrun : parseLine (renderLine ⟨BE.dml, false, ts, e0 :: es⟩)
          ⟨f :: rest, dr, c, ci, u, ll⟩ =
          handleDmlBegin (JSNum.val ts) (e0 :: es) ⟨f :: rest, dr, c, ci, u, ll⟩ := hpl
      unfold handleDmlBegin at hrun
      dsimp only at hrun
      rw [if_neg hlt] at hrun
      exact ⟨_, _, f.data, hrun, rfl, rfl, rfl, rfl, rfl, rfl, rfl⟩
    | execution => exact ⟨_, _, f.data, hpl, rfl, rfl, rfl, rfl, rfl, rfl, rfl⟩
    | flowInterview =>
      have hrun : parseLine (renderLine ⟨BE.flowInterview, false, ts, payload⟩)
          ⟨f :: rest, dr, c, ci, u, ll⟩ =
          handleFlowStartInterviewBegin (JSNum.val ts) payload ⟨f :: rest, dr, c, ci, u, ll⟩ := hpl
      unfold handleFlowStartInterviewBegin at hrun
      dsimp only at hrun
      by_cases hft : f.data.type = strOf "FLOW"
      · rw [if_pos hft] at hrun
        exact ⟨_, _, { f.data with name := lastElem payload }, hrun, rfl, rfl, rfl, rfl, rfl, rfl, rfl⟩
      · rw [if_neg hft] at hrun
        exact ⟨_, _, f.data, hrun, rfl, rfl, rfl, rfl, rfl, rfl, rfl⟩
    | flowElement => exact ⟨_, _, f.data, hpl, rfl, rfl, rfl, rfl, rfl, rfl, rfl⟩
    | flowBulk => exact ⟨_, _, f.data, hpl, rfl, rfl, rfl, rfl, rfl, rfl, rfl⟩
    | flowInterviews => exact ⟨_, _, f.data, hpl, rfl, rfl, rfl, rfl, rfl, rfl, rfl⟩
    | callout => exact ⟨_, _, f.data, hpl, rfl, rfl, rfl, rfl, rfl, rfl, rfl⟩

/-- When the top of the stack already has the exit's target variant,
`handleNodeExit` pops (and, for a truthy timestamp, finalizes) exactly that
node, attaching it to the frame below. -/
theorem handleNodeExit_pop {st : PState} {g gg : Frame} {ggs : List Frame}
    (ts : JSNum) (ty : Str)
    (h : st.stack = g :: gg :: ggs) (htgt : mapTypeByTypeExit ty = some g.data.type)
    (ht : ts.truthy = true) :
    handleNodeExit ts ty st =
      { st with stack :=
          (⟨gg.data, gg.kids ++ [PTree.node (finalizeData ts g.data) g.kids]⟩ : Frame) :: ggs } := by
  rw [handleNodeExit_cons ts ty h, htgt,
      closeMismatches_stop (some g.data.type) ts st.stack.length h rfl,
      closeNode_cons_truthy ts ht h]

theorem handleSOQLExit_pop {st : PState} {g gg : Frame} {ggs : List Frame}
    (ts : JSNum) (ed : List Str)
    (h : st.stack = g :: gg :: ggs) (htype : g.data.type = strOf "SOQL")
    (ht : ts.truthy = true) :
    ∃ d' : TreeNode, handleSOQLExit ts ed st =
      { st with stack :=
          (⟨gg.data, gg.kids ++ [PTree.node (finalizeData ts d') g.kids]⟩ : Frame) :: ggs } := by
  cases st with
  | mk stk dr c ci u ll =>
    simp only at h
    subst h
    refine ⟨{ g.data with rows := some (extractRows (lastElem ed)) }, ?_⟩
    have hm : handleSOQLExit ts ed ⟨g :: gg :: ggs, dr, c, ci, u, ll⟩ =
        handleNodeExit ts (strOf "SOQL_EXECUTE_END")
          ⟨(⟨{ g.data with rows := some (extractRows (lastElem ed)) }, g.kids⟩ : Frame) :: gg :: ggs,
            dr, c, ci, u, ll⟩ := by
      unfold handleSOQLExit
      dsimp only [mutateCurrent]
      rw [if_pos htype]
    rw [hm, handleNodeExit_pop ts (strOf "SOQL_EXECUTE_END") rfl (by rw [htype]; rfl) ht]

theorem handleCalloutResponse_pop {st : PState} {g gg : Frame} {ggs : List Frame}
    (ts : JSNum) (ed : List Str)
    (h : st.stack = g :: gg :: ggs) (htype : g.data.type = strOf "CALLOUT")
    (ht : ts.truthy = true) :
    ∃ d' : TreeNode, handleCalloutResponse ts ed st =
      { st with stack :=
          (⟨gg.data, gg.kids ++ [PTree.node (finalizeData ts d') g.kids]⟩ : Frame) :: ggs } := by
  cases st with
  | mk stk dr c ci u ll =>
    simp only at h
    subst h
    refine ⟨{ g.data with response := lastElem ed }, ?_⟩
    have hm : handleCalloutResponse ts ed ⟨g :: gg :: ggs, dr, c, ci, u, ll⟩ =
        handleNodeExit ts (strOf "CALLOUT_RESPONSE")
          ⟨(⟨{ g.data with response := lastElem ed }, g.kids⟩ : Frame) :: gg :: ggs,
            dr, c, ci, u, ll⟩ := by
      unfold handleCalloutResponse
      dsimp only [mutateCurrent]
      rw [if_pos htype]
    rw [hm, handleNodeExit_pop ts (strOf "CALLOUT_RESPONSE") rfl (by rw [htype]; rfl) ht]

/-- Every end event, dispatched on a stack whose top is the matching open
node, pops exactly that node, stamps its `timeEnd`/`durationMs` (positive
timestamp), and attaches the finished subtree as the last child of the
frame below. -/
theorem end_step (b : BE) (ts : ℕ) (payload : List Str) (st : PState)
    {g gg : Frame} {ggs : List Frame}
    (hstack : st.stack = g :: gg :: ggs) (htype : g.data.type = beType b)
    (hts : 0 < ts)
    (hwfp : ∀ p ∈ payload, ∀ c ∈ p, c ≠ '|' ∧ isNlAnchor c = false) :
    ∃ (st2 : PState) (d' : TreeNode),
      parseLine (renderLine ⟨b, true, ts, payload⟩) st = some st2 ∧
      st2.stack =
        (⟨gg.data, gg.kids ++ [PTree.node (finalizeData (JSNum.val ts) d') g.kids]⟩ : Frame) :: ggs := by
  have hnm : g.data.type ≠ strOf "MANAGED_PKG" := by
    rw [htype]
    exact beType_ne_managed b
  have ht : (JSNum.val ts).truthy = true := valNat_truthy ts hts
  have hpl := parseLine_render ⟨b, true, ts, payload⟩ st hstack hnm hwfp
  cases b with
  | codeUnit =>
    exact ⟨_, g.data, hpl.trans (congrArg some
      (handleNodeExit_pop (JSNum.val ts) (strOf "CODE_UNIT_FINISHED") hstack (by rw [htype]; rfl) ht)), rfl⟩
  | method =>
    exact ⟨_, g.data, hpl.trans (congrArg some
      (handleNodeExit_pop (JSNum.val ts) (strOf "METHOD_EXIT") hstack (by rw [htype]; rfl) ht)), rfl⟩
  | soql =>
    obtain ⟨d', hd'⟩ := handleSOQLExit_pop (JSNum.val ts) payload hstack htype ht
    exact ⟨_, d', hpl.trans (congrArg some hd'), rfl⟩
  | dml =>
    exact ⟨_, g.data, hpl.trans (congrArg some
      (handleNodeExit_pop (JSNum.val ts) (strOf "DML_END") hstack (by rw [htype]; rfl) ht)), rfl⟩
  | execution =>
    exact ⟨_, g.data, hpl.trans (congrArg some
      (handleNodeExit_pop (JSNum.val ts) (strOf "EXECUTION_FINISHED") hstack (by rw [htype]; rfl) ht)), rfl⟩
  | flowInterview =>
    exact ⟨_, g.data, hpl.trans (congrArg some
      (handleNodeExit_pop (JSNum.val ts) (strOf "FLOW_START_INTERVIEW_END") hstack (by rw [htype]; rfl) ht)), rfl⟩
  | flowElement =>
    exact ⟨_, g.data, hpl.trans (congrArg some
      (handleNodeExit_pop (JSNum.val ts) (strOf "FLOW_ELEMENT_END") hstack (by rw [htype]; rfl) ht)), rfl⟩
  | flowBulk =>
    exact ⟨_, g.data, hpl.trans (congrArg some
      (handleNodeExit_pop (JSNum.val ts) (strOf "FLOW_BULK_ELEMENT_END") hstack (by rw [htype]; rfl) ht)), rfl⟩
  | flowInterviews =>
    exact ⟨_, g.data, hpl.trans (congrArg some
      (handleNodeExit_pop (JSNum.val ts) (strOf "FLOW_START_INTERVIEWS_END") hstack (by rw [htype]; rfl) ht)), rfl⟩
  | callout =>
    obtain ⟨d', hd'⟩ := handleCalloutResponse_pop (JSNum.val ts) payload hstack htype ht
    exact ⟨_, d', hpl.trans (congrArg some hd'), rfl⟩

/-- Every node of a finished subtree carries a stamped `timeEnd` and
`durationMs`. -/
inductive AllClosed : PTree → Prop where
  | node (d : TreeNode) (kids : List PTree) :
      d.timeEnd ≠ none → d.durationMs ≠ none →
      (∀ t ∈ kids, AllClosed t) → AllClosed (PTree.node d kids)

/-- Feed the rendered lines of a list of events through `parseLine`. -/
def processEvents : List Ev → PState → Option PState
  | [], st => some st
  | e :: es, st =>
    match parseLine (renderLine e) st with
    | some st2 => processEvents es st2
    | none => none

theorem processEvents_append (evs1 evs2 : List Ev) :
    ∀ st : PState, processEvents (evs1 ++ evs2) st =
      match processEvents evs1 st with
      | some st1 => processEvents evs2 st1
      | none => none := by
  induction evs1 with
  | nil => intro st; rfl
  | cons e es ih =>
    intro st
    show (match parseLine (renderLine e) st with
          | some st2 => processEvents (es ++ evs2) st2
          | none => none) =
        (match (match parseLine (renderLine e) st with
                | some st2 => processEvents es st2
                | none => none) with
         | some st1 => processEvents evs2 st1
         | none => none)
    cases parseLine (renderLine e) st with
    | none => rfl
    | some st2 => exact ih st2

/-- Main induction for C5: a balanced, well-formed event sequence run from
any state whose current node is not a MANAGED_PKG parses without error,
returns to the same stack shape (same tail; top frame with the same
type/timeEnd/durationMs), and every tree it appends under the top frame is
completely closed. -/
theorem balanced_sound :
    ∀ evs : List Ev, BalancedEv evs → (∀ e ∈ evs, WfEv e) →
    ∀ (st : PState) (f : Frame) (rest : List Frame),
      st.stack = f :: rest → f.data.type ≠ strOf "MANAGED_PKG" →
      ∃ (st2 : PState) (d2 : TreeNode) (newKids : List PTree),
        processEvents evs st = some st2 ∧
        st2.stack = (⟨d2, f.kids ++ newKids⟩ : Frame) :: rest ∧
        d2.type = f.data.type ∧ d2.timeEnd = f.data.timeEnd ∧ d2.durationMs = f.data.durationMs ∧
        (∀ t ∈ newKids, AllClosed t) := by
  intro evs hbal
  induction hbal with
  | nil =>
    intro _ st f rest hstack _
    refine ⟨st, f.data, [], rfl, ?_, rfl, rfl, rfl, ?_⟩
    · rw [hstack, List.append_nil]
    · intro t ht
      cases ht
  | node b ts1 ts2 p1 p2 inner rest' hinner hrest ihinner ihrest =>
    intro hwf st f rest hstack hnm
    have hwf1 : WfEv ⟨b, false, ts1, p1⟩ := hwf _ (List.mem_cons_self _ _)
    have hwfinner : ∀ e ∈ inner, WfEv e := fun e he =>
      hwf e (List.mem_cons_of_mem _ (List.mem_append_left _ he))
    have hwf2 : WfEv ⟨b, true, ts2, p2⟩ :=
      hwf _ (List.mem_cons_of_mem _ (List.mem_append_right _ (List.mem_cons_self _ _)))
    have hwfrest : ∀ e ∈ rest', WfEv e := fun e he =>
      hwf e (List.mem_cons_of_mem _ (List.mem_append_right _ (List.mem_cons_of_mem _ he)))
    obtain ⟨-, hp1ok, hmeth, hdml⟩ := hwf1
    obtain ⟨htpos2, hp2ok, -, -⟩ := hwf2
    obtain ⟨stB, nd, fd, hrunB, hstB, hndty, hndte, hnddm, hfdty, hfdte, hfddm⟩ :=
      begin_step b ts1 p1 st hstack hnm hp1ok (fun hb => hmeth hb rfl) (fun hb => hdml hb rfl)
    have hndnm : nd.type ≠ strOf "MANAGED_PKG" := by
      rw [hndty]
      exact beType_ne_managed b
    obtain ⟨stM, dM, innerKids, hrunM, hstM, hMty, hMte, hMdm, hMclosed⟩ :=
      ihinner hwfinner stB ⟨nd, []⟩ ((⟨fd, f.kids⟩ : Frame) :: rest) hstB hndnm
    have hMty' : dM.type = beType b := by
      rw [hMty]
      exact hndty
    obtain ⟨stE, d', hrunE, hstE⟩ := end_step b ts2 p2 stM hstM hMty' htpos2 hp2ok
    have hfdnm : fd.type ≠ strOf "MANAGED_PKG" := by
      rw [hfdty]
      exact hnm
    obtain ⟨st2, d2, restKids, hrunR, hst2, hty2, hte2, hdm2, hRclosed⟩ :=
      ihrest hwfrest stE
        ⟨fd, f.kids ++ [PTree.node (finalizeData (JSNum.val ts2) d') ([] ++ innerKids)]⟩
        rest hstE hfdnm
    refine ⟨st2, d2,
      PTree.node (finalizeData (JSNum.val ts2) d') ([] ++ innerKids) :: restKids,
      ?_, ?_, ?_, ?_, ?_, ?_⟩
    · show (match parseLine (renderLine ⟨b, false, ts1, p1⟩) st with
            | some s => processEvents (inner ++ ⟨b, true, ts2, p2⟩ :: rest') s
            | none => none) = some st2
      rw [hrunB]
      show processEvents (inner ++ ⟨b, true, ts2, p2⟩ :: rest') stB = some st2
      rw [processEvents_append, hrunM]
      show processEvents (⟨b, true, ts2, p2⟩ :: rest') stM = some st2
      show (match parseLine (renderLine ⟨b, true, ts2, p2⟩) stM with
            | some s => processEvents rest' s
            | none => none) = some st2
      rw [hrunE]
      exact hrunR
    · rw [hst2, List.append_assoc]
      rfl
    · rw [hty2, hfdty]
    · rw [hte2, hfdte]
    · rw [hdm2, hfddm]
    · intro t ht
      rcases List.mem_cons.mp ht with rfl | htR
      · refine AllClosed.node _ _ ?_ ?_ ?_
        · simp [finalizeData]
        · simp [finalizeData]
        · intro t' ht'
          exact hMclosed t' (by simpa using ht')
      · exact hRclosed t htR

/-! ### Splitting a rendered body back into its event chunks -/

theorem startsTs_pre (z : Str) : startsTs (strOf "00:00:00.0 (" ++ z) = true := rfl

theorem intercalate_head (sep : Str) (x : Str) (xs : List Str) :
    ∃ r, List.intercalate sep (x :: xs) = x ++ r := by
  cases xs with
  | nil =>
    refine ⟨[], ?_⟩
    rw [intercalate_single, List.append_nil]
  | cons y zs =>
    refine ⟨sep ++ List.intercalate sep (y :: zs), ?_⟩
    rw [intercalate_cons₂, List.append_assoc]

theorem renderLine_pre (e : Ev) : ∃ y, renderLine e = strOf "00:00:00.0 (" ++ y := by
  obtain ⟨r, hr⟩ := intercalate_head ['|'] (timeField e.ts) (evTag e :: e.payload)
  refine ⟨natToStr e.ts ++ [')'] ++ r, ?_⟩
  show List.intercalate ['|'] (timeField e.ts :: evTag e :: e.payload) = _
  rw [hr]
  simp [timeField, List.append_assoc]

theorem mem_intercalate_sep (sep : Str) :
    ∀ (parts : List Str) (c : Char), c ∈ List.intercalate sep parts →
      c ∈ sep ∨ ∃ p ∈ parts, c ∈ p
  | [], c, h => by simp [List.intercalate] at h
  | [p], c, h => by
    rw [intercalate_single] at h
    exact Or.inr ⟨p, List.mem_singleton_self p, h⟩
  | p :: q :: ps, c, h => by
    rw [intercalate_cons₂] at h
    rcases List.mem_append.mp h with h1 | h1
    · rcases List.mem_append.mp h1 with h2 | h2
      · exact Or.inr ⟨p, List.mem_cons_self _ _, h2⟩
      · exact Or.inl h2
    · rcases mem_intercalate_sep sep (q :: ps) c h1 with h2 | ⟨p', hp', hcp'⟩
      · exact Or.inl h2
      · exact Or.inr ⟨p', List.mem_cons_of_mem _ hp', hcp'⟩

theorem beginTag_no_anchor (b : BE) : ∀ c ∈ beginTag b, isNlAnchor c = false := by
  cases b <;> decide

theorem endTag_no_anchor (b : BE) : ∀ c ∈ endTag b, isNlAnchor c = false := by
  cases b <;> decide

theorem evTag_no_anchor (e : Ev) : ∀ c ∈ evTag e, isNlAnchor c = false := by
  unfold evTag
  cases e.isEnd
  · simp only [if_neg Bool.false_ne_true]
    exact beginTag_no_anchor e.kind
  · simp only [if_pos rfl]
    exact endTag_no_anchor e.kind

theorem renderLine_no_anchor (e : Ev)
    (hok : ∀ p ∈ e.payload, ∀ c ∈ p, c ≠ '|' ∧ isNlAnchor c = false) :
    ∀ c ∈ renderLine e, isNlAnchor c = false := by
  intro c hc
  rcases mem_intercalate_sep ['|'] _ c hc with hsep | ⟨p, hp, hcp⟩
  · rcases List.mem_singleton.mp hsep with rfl
    decide
  · rcases List.mem_cons.mp hp with rfl | hp1
    · exact timeField_no_anchor c hcp
    · rcases List.mem_cons.mp hp1 with rfl | hp2
      · exact evTag_no_anchor e c hcp
      · exact (hok p hp2 c hcp).2

/-- The chunks the lookahead split produces from a list of record lines:
every line but the last keeps its following newline. -/
def chunksOf : List Str → List Str
  | [] => []
  | [l] => [l]
  | l :: ls => (l ++ ['\n']) :: chunksOf ls

theorem splitChunksGo_last :
    ∀ (l acc : Str), (∀ c ∈ l, isNlAnchor c = false) →
      splitChunksGo l acc = [acc.reverse ++ l]
  | [], acc, _ => by simp [splitChunksGo]
  | c :: cs, acc, h => by
    have hc : isNlAnchor c = false := h c (List.mem_cons_self _ _)
    have hcond : ¬(isNlAnchor c = true ∧ startsTs cs = true) := by
      rw [hc]
      rintro ⟨h1, -⟩
      cases h1
    show (if isNlAnchor c ∧ startsTs cs then (c :: acc).reverse :: splitChunksGo cs []
          else splitChunksGo cs (c :: acc)) = _
    rw [if_neg hcond, splitChunksGo_last cs (c :: acc) (fun x hx => h x (List.mem_cons_of_mem _ hx))]
    simp

theorem splitChunksGo_step :
    ∀ (l : Str), (∀ c ∈ l, isNlAnchor c = false) →
    ∀ (rest : Str), startsTs rest = true →
    ∀ (acc : Str),
      splitChunksGo (l ++ '\n' :: rest) acc =
        (acc.reverse ++ l ++ ['\n']) :: splitChunksGo rest []
  | [], _, rest, hr, acc => by
    show (if isNlAnchor '\n' ∧ startsTs rest then ('\n' :: acc).reverse :: splitChunksGo rest []
          else splitChunksGo rest ('\n' :: acc)) = _
    rw [if_pos ⟨by decide, hr⟩]
    simp
  | c :: cs, h, rest, hr, acc => by
    have hc : isNlAnchor c = false := h c (List.mem_cons_self _ _)
    have hcond : ¬(isNlAnchor c = true ∧ startsTs (cs ++ '\n' :: rest) = true) := by
      rw [hc]
      rintro ⟨h1, -⟩
      cases h1
    show (if isNlAnchor c ∧ startsTs (cs ++ '\n' :: rest) then
            (c :: acc).reverse :: splitChunksGo (cs ++ '\n' :: rest) []
          else splitChunksGo (cs ++ '\n' :: rest) (c :: acc)) = _
    rw [if_neg hcond,
        splitChunksGo_step cs (fun x hx => h x (List.mem_cons_of_mem _ hx)) rest hr (c :: acc)]
    simp

theorem splitChunks_lines :
    ∀ lines : List Str, lines ≠ [] →
      (∀ l ∈ lines, ∀ c ∈ l, isNlAnchor c = false) →
      (∀ l ∈ lines, ∃ y, l = strOf "00:00:00.0 (" ++ y) →
      splitChunks (List.intercalate ['\n'] lines) = chunksOf lines
  | [], h, _, _ => absurd rfl h
  | [l], _, hclean, _ => by
    rw [intercalate_single]
    show splitChunksGo l [] = [l]
    rw [splitChunksGo_last l [] (hclean l (List.mem_singleton_self l))]
    rfl
  | l :: l' :: ls, _, hclean, hpre => by
    have hi : List.intercalate ['\n'] (l :: l' :: ls) =
        l ++ '\n' :: List.intercalate ['\n'] (l' :: ls) := by
      rw [intercalate_cons₂, List.append_assoc]
      rfl
    have hrs : startsTs (List.intercalate ['\n'] (l' :: ls)) = true := by
      obtain ⟨r, hr⟩ := intercalate_head ['\n'] l' ls
      obtain ⟨y, hy⟩ := hpre l' (List.mem_cons_of_mem _ (List.mem_cons_self _ _))
      rw [hr, hy, List.append_assoc]
      exact startsTs_pre _
    show splitChunksGo (List.intercalate ['\n'] (l :: l' :: ls)) [] = _
    rw [hi, splitChunksGo_step l (hclean l (List.mem_cons_self _ _)) _ hrs []]
    have ih := splitChunks_lines (l' :: ls) (by simp)
      (fun x hx => hclean x (List.mem_cons_of_mem _ hx))
      (fun x hx => hpre x (List.mem_cons_of_mem _ hx))
    show ([].reverse ++ l ++ ['\n']) :: splitChunks (List.intercalate ['\n'] (l' :: ls)) = _
    rw [ih]
    rfl

theorem removeTrailing_clean (l : Str) (h : ∀ c ∈ l, isNlAnchor c = false) :
    removeTrailingNewlines l = l := by
  have hn : ∀ c ∈ l.reverse, (decide (c = '\n') : Bool) = false := by
    intro c hc
    have := h c (List.mem_reverse.mp hc)
    cases he : decide (c = '\n')
    · rfl
    · exfalso
      rcases of_decide_eq_true he with rfl
      cases this
  have hr : ∀ c ∈ l.reverse, (decide (c = '\r') : Bool) = false := by
    intro c hc
    have := h c (List.mem_reverse.mp hc)
    cases he : decide (c = '\r')
    · rfl
    · exfalso
      rcases of_decide_eq_true he with rfl
      cases this
  unfold removeTrailingNewlines dropTrailingRun
  rw [dropWhile_none l.reverse hn, List.reverse_reverse,
      dropWhile_none l.reverse hr, List.reverse_reverse]

theorem removeTrailing_append_nl (l : Str) (h : ∀ c ∈ l, isNlAnchor c = false) :
    removeTrailingNewlines (l ++ ['\n']) = l := by
  have hn : ∀ c ∈ l.reverse, (decide (c = '\n') : Bool) = false := by
    intro c hc
    have := h c (List.mem_reverse.mp hc)
    cases he : decide (c = '\n')
    · rfl
    · exfalso
      rcases of_decide_eq_true he with rfl
      cases this
  have hr : ∀ c ∈ l.reverse, (decide (c = '\r') : Bool) = false := by
    intro c hc
    have := h c (List.mem_reverse.mp hc)
    cases he : decide (c = '\r')
    · rfl
    · exfalso
      rcases of_decide_eq_true he with rfl
      cases this
  unfold removeTrailingNewlines dropTrailingRun
  rw [List.reverse_append]
  show ((('\n' :: l.reverse).dropWhile fun c => decide (c = '\n')).reverse.reverse.dropWhile
      fun c => decide (c = '\r')).reverse = l
  rw [List.dropWhile_cons]
  simp only [decide_True, if_true]
  rw [dropWhile_none l.reverse hn, List.reverse_reverse,
      dropWhile_none l.reverse hr, List.reverse_reverse]

/-- The per-chunk fold of `parseState`, over the chunks of a rendered event
list, is exactly `processEvents`. -/
theorem chunks_fold_eq :
    ∀ evs : List Ev,
      (∀ e ∈ evs, ∀ c ∈ renderLine e, isNlAnchor c = false) →
      ∀ st : PState,
        (chunksOf (evs.map renderLine)).foldlM
          (fun st chunk => parseLine (removeTrailingNewlines chunk) st) st =
        processEvents evs st
  | [], _, st => rfl
  | [e], hok, st => by
    show (parseLine (removeTrailingNewlines (renderLine e)) st) >>=
        (fun s => List.foldlM _ s []) = _
    rw [removeTrailing_clean _ (hok e (List.mem_singleton_self e))]
    show (parseLine (renderLine e) st) >>= (fun s => some s) =
        (match parseLine (renderLine e) st with
         | some st2 => processEvents [] st2
         | none => none)
    cases parseLine (renderLine e) st with
    | none => rfl
    | some s => rfl
  | e :: e' :: es, hok, st => by
    show (parseLine (removeTrailingNewlines (renderLine e ++ ['\n'])) st) >>=
        (fun s => (chunksOf ((e' :: es).map renderLine)).foldlM
          (fun st chunk => parseLine (removeTrailingNewlines chunk) st) s) = _
    rw [removeTrailing_append_nl _ (hok e (List.mem_cons_self _ _))]
    show (parseLine (renderLine e) st) >>= _ = (match parseLine (renderLine e) st with
      | some st2 => processEvents (e' :: es) st2
      | none => none)
    cases parseLine (renderLine e) st with
    | none => rfl
    | some s =>
      show (chunksOf ((e' :: es).map renderLine)).foldlM
          (fun st chunk => parseLine (removeTrailingNewlines chunk) st) s = _
      exact chunks_fold_eq (e' :: es) (fun x hx => hok x (List.mem_cons_of_mem _ hx)) s

theorem handleDebugLevels_stack (line : Str) (st : PState) :
    (handleDebugLevels line st).stack = st.stack := by
  unfold handleDebugLevels
  dsimp only
  split
  · rfl
  · rfl

/-- `parse`'s header/body split: with a newline-free header line, the first
line is the header and the event body is everything after the first
newline. -/
theorem parseState_split (header B : Str) (hh : '\n' ∉ header) :
    parseState (header ++ '\n' :: B) =
      (splitChunks B).foldlM (fun st chunk => parseLine (removeTrailingNewlines chunk) st)
        (handleDebugLevels header initState) := by
  have h0 : jsIndexOfChar ('\n' :: B) '\n' = 0 := by simp [jsIndexOfChar]
  have hidx := jsIndexOfChar_append_right_found '\n' header ('\n' :: B) 0 hh h0 le_rfl
  rw [add_zero] at hidx
  have hne1 : ¬(jsIndexOfChar (header ++ '\n' :: B) '\n' = -1) := by
    rw [hidx]
    intro hcon
    omega
  have hfirst : (header ++ '\n' :: B).take (jsIndexOfChar (header ++ '\n' :: B) '\n').toNat
      = header := by
    rw [hidx, Int.toNat_natCast]
    exact List.take_left header ('\n' :: B)
  have h2 : ((jsIndexOfChar (header ++ '\n' :: B) '\n') + 1).toNat = header.length + 1 := by
    rw [hidx]
    omega
  have hrest : (header ++ '\n' :: B).drop ((jsIndexOfChar (header ++ '\n' :: B) '\n') + 1).toNat
      = B := by
    rw [h2]
    have he : header ++ '\n' :: B = (header ++ ['\n']) ++ B := by simp
    rw [he]
    have hlen : (header ++ ['\n']).length = header.length + 1 := by simp
    rw [← hlen]
    exact List.drop_left (header ++ ['\n']) B
  unfold parseState
  dsimp only
  rw [if_neg hne1, if_neg hne1, hfirst, hrest]

/-- `parseState` on a header line plus a balanced, well-formed event body:
no error, and the final stack is exactly the ROOT frame, all of whose
accumulated children are completely closed. -/
theorem parseState_balanced (header : Str) (hh : '\n' ∉ header)
    (evs : List Ev) (hbal : BalancedEv evs) (hwf : ∀ e ∈ evs, WfEv e) :
    ∃ (st2 : PState) (d2 : TreeNode) (kids : List PTree),
      parseState (header ++ '\n' :: List.intercalate ['\n'] (evs.map renderLine)) = some st2 ∧
      st2.stack = [(⟨d2, kids⟩ : Frame)] ∧ d2.type = strOf "ROOT" ∧
      ∀ t ∈ kids, AllClosed t := by
  have hps := parseState_split header (List.intercalate ['\n'] (evs.map renderLine)) hh
  have hst1 : (handleDebugLevels header initState).stack =
      [(⟨{ id := idGen 1, type := strOf "ROOT" }, []⟩ : Frame)] := by
    rw [handleDebugLevels_stack]
    rfl
  cases evs with
  | nil =>
    refine ⟨handleDebugLevels header initState, { id := idGen 1, type := strOf "ROOT" }, [],
      hps.trans rfl, hst1, rfl, ?_⟩
    intro t ht
    cases ht
  | cons e es =>
    have hclean : ∀ l ∈ (e :: es).map renderLine, ∀ c ∈ l, isNlAnchor c = false := by
      intro l hl
      obtain ⟨ev, hev, rfl⟩ := List.mem_map.mp hl
      exact renderLine_no_anchor ev (hwf ev hev).2.1
    have hpre : ∀ l ∈ (e :: es).map renderLine, ∃ y, l = strOf "00:00:00.0 (" ++ y := by
      intro l hl
      obtain ⟨ev, hev, rfl⟩ := List.mem_map.mp hl
      exact renderLine_pre ev
    have hsc := splitChunks_lines ((e :: es).map renderLine) (by simp) hclean hpre
    have hbridge : (splitChunks (List.intercalate ['\n'] ((e :: es).map renderLine))).foldlM
        (fun st chunk => parseLine (removeTrailingNewlines chunk) st)
        (handleDebugLevels header initState) =
        processEvents (e :: es) (handleDebugLevels header initState) := by
      rw [hsc]
      exact chunks_fold_eq (e :: es) (fun ev hev => renderLine_no_anchor ev (hwf ev hev).2.1) _
    obtain ⟨st2, d2, kids, hrun, hstk, hty, -, -, hclosed⟩ :=
      balanced_sound (e :: es) hbal hwf (handleDebugLevels header initState)
        ⟨{ id := idGen 1, type := strOf "ROOT" }, []⟩ [] hst1 (by decide)
    refine ⟨st2, d2, kids, hps.trans (hbridge.trans hrun), ?_, ?_, hclosed⟩
    · exact hstk
    · exact hty

instance (e : Ev) : Decidable (WfEv e) := by
  unfold WfEv
  infer_instance

/-- C5: Stack balance — for every input log whose body consists only of
well-formed, properly nested begin/end event pairs (after a newline-free
header line), `parse` succeeds and the resulting tree has zero stray open
nodes: its root is the synthetic ROOT node, and every other node — every
node of every subtree hanging under ROOT — has its `timeEnd` and
`durationMs` defined (`AllClosed`). -/
theorem c5_stack_balance (header fname : Str) (evs : List Ev)
    (hh : ¬('\n' ∈ header)) (hbal : BalancedEv evs) (hwf : ∀ e ∈ evs, WfEv e) :
    ∃ (out : ParsedLog) (t : PTree),
      parse (header ++ '\n' :: List.intercalate ['\n'] (evs.map renderLine)) fname = some out ∧
      out.tree = some t ∧ (treeData t).type = strOf "ROOT" ∧
      ∀ sub ∈ treeKids t, AllClosed sub := by
  obtain ⟨st2, d2, kids, hps, hstk, hty, hclosed⟩ := parseState_balanced header hh evs hbal hwf
  refine ⟨buildOutput fname
      (utf8Len (header ++ '\n' :: List.intercalate ['\n'] (evs.map renderLine))) st2,
    PTree.node d2 kids, ?_, ?_, hty, ?_⟩
  · unfold parse
    rw [hps]
    rfl
  · show finalTree st2 = some (PTree.node d2 kids)
    unfold finalTree
    rw [hstk]
    rfl
  · intro sub hsub
    exact hclosed sub hsub

theorem c5_stack_balance_witness :
    ∃ (out : ParsedLog) (t : PTree),
      parse (strOf "64.0 APEX_CODE,FINEST" ++ '\n' :: List.intercalate ['\n']
          (([⟨BE.execution, false, 1, []⟩, ⟨BE.execution, true, 2, []⟩] : List Ev).map renderLine))
        (strOf "log.txt") = some out ∧
      out.tree = some t ∧ (treeData t).type = strOf "ROOT" ∧
      ∀ sub ∈ treeKids t, AllClosed sub :=
  c5_stack_balance (strOf "64.0 APEX_CODE,FINEST") (strOf "log.txt")
    [⟨BE.execution, false, 1, []⟩, ⟨BE.execution, true, 2, []⟩]
    (by decide)
    (BalancedEv.node BE.execution 1 2 [] [] [] [] BalancedEv.nil BalancedEv.nil)
    (by decide)
